import Mathlib

/-!
# CHIP-8 emulator core (`CHIP8.h`, `CHIP8.cpp`)

A shallow embedding of the class `CHIP8`: the machine state, the constructor,
`loadGame`, `setKeys`, `decodeOpcode` and `emulateCycle`.

Conventions of the embedding.
* A `std::array<T, N>` is a function `Nat → T` together with the bound `N` that
  `.at()` checks; a failed check (`std::out_of_range`, which nothing catches) is
  the result `none`.
* `unsigned char` and `unsigned short` values are natural numbers; every store
  into such a variable reduces modulo `2^8` resp. `2^16`.
* The random byte drawn by `m_distribution(m_mersenne_twister)` is an argument of
  the cycle.
* Lines printed on `std::cout` are appended to the field `cout`.
-/

/-- Lines the core prints on `std::cout`. -/
inductive Output where
  /-- The line "BEEP!" followed by the bell character. -/
  | beep
  /-- The line "Opcode 0x0NNN not implemented." -/
  | notImplemented
  /-- The line "Opcode n (decimal) not recognized." -/
  | notRecognized (opcode : Nat)
  deriving DecidableEq, Repr

/-- The data members of `class CHIP8` (CHIP8.h 30-66), and the output stream. -/
structure CHIP8 where
  /-- The member `unsigned short m_opcode`. -/
  m_opcode : Nat
  /-- The member `std::array<unsigned char, 4096> m_memory`. -/
  m_memory : Nat → Nat
  /-- The member `std::array<unsigned char, 16> m_V`. -/
  m_V : Nat → Nat
  /-- The member `unsigned short m_I`. -/
  m_I : Nat
  /-- The member `unsigned short m_pc`. -/
  m_pc : Nat
  /-- The member `std::array<bool, 2048> m_gfx`. -/
  m_gfx : Nat → Bool
  /-- The member `unsigned char m_delay_timer`. -/
  m_delay_timer : Nat
  /-- The member `unsigned char m_sound_timer`. -/
  m_sound_timer : Nat
  /-- The member `std::array<unsigned short, 16> m_stack`. -/
  m_stack : Nat → Nat
  /-- The member `unsigned short m_sp`. -/
  m_sp : Nat
  /-- The member `std::array<bool, 16> m_key`. -/
  m_key : Nat → Bool
  /-- The member `bool m_draw_flag`. -/
  m_draw_flag : Bool
  /-- What has been written to `std::cout`, oldest line first. -/
  cout : List Output

namespace CHIP8

/-- Overwrite one element of an array. -/
def store {α : Type} (a : Nat → α) (i : Nat) (v : α) : Nat → α :=
  fun j => if j = i then v else a j

/-- Read access `a.at(i)` on a `std::array` of `n` elements. -/
def arrAt {α : Type} (n : Nat) (a : Nat → α) (i : Nat) : Option α :=
  if i < n then some (a i) else none

/-- Write access `a.at(i) = v` on a `std::array` of `n` elements. -/
def arrSet {α : Type} (n : Nat) (a : Nat → α) (i : Nat) (v : α) : Option (Nat → α) :=
  if i < n then some (store a i v) else none

/-- The local array `fontset` of the constructor (CHIP8.cpp 27-45). -/
def fontset : List Nat :=
  [0xF0, 0x90, 0x90, 0x90, 0xF0,
   0x20, 0x60, 0x20, 0x20, 0x70,
   0xF0, 0x10, 0xF0, 0x80, 0xF0,
   0xF0, 0x10, 0xF0, 0x10, 0xF0,
   0x90, 0x90, 0xF0, 0x10, 0x10,
   0xF0, 0x80, 0xF0, 0x10, 0xF0,
   0xF0, 0x80, 0xF0, 0x90, 0xF0,
   0xF0, 0x10, 0x20, 0x40, 0x40,
   0xF0, 0x90, 0xF0, 0x90, 0xF0,
   0xF0, 0x90, 0xF0, 0x10, 0xF0,
   0xF0, 0x90, 0xF0, 0x90, 0x90,
   0xE0, 0x90, 0xE0, 0x90, 0xE0,
   0xF0, 0x80, 0x80, 0x80, 0xF0,
   0xE0, 0x90, 0x90, 0x90, 0xE0,
   0xF0, 0x80, 0xF0, 0x80, 0xF0,
   0xF0, 0x80, 0xF0, 0x80, 0x80]

/-- The constructor `CHIP8::CHIP8` (CHIP8.cpp 9-54): every array filled with zero,
then the 80 font bytes copied to `m_memory[0..79]`. (A definition `CHIP8.CHIP8` would
shadow the structure inside this namespace, hence the name.) -/
def ctor : CHIP8 where
  m_opcode := 0
  m_memory := fun i => if i < 80 then fontset.getD i 0 else 0
  m_V := fun _ => 0
  m_I := 0
  m_pc := 0x200
  m_gfx := fun _ => false
  m_delay_timer := 0
  m_sound_timer := 0
  m_stack := fun _ => 0
  m_sp := 0
  m_key := fun _ => false
  m_draw_flag := true
  cout := []

/-- The loop of `loadGame` over the bytes still unread: each pass stores one byte
at `m_memory.at(i)`. When the stream is exhausted `file.good()` is still true, so
one more pass runs: `file.get()` returns `EOF` (-1), stored as the byte 255, and
only then does the stream stop being good. -/
def loadLoop : List Nat → Nat → (Nat → Nat) → Option (Nat → Nat)
  | [], i, mem => arrSet 4096 mem i 255
  | b :: rest, i, mem => (arrSet 4096 mem i (b % 256)).bind (loadLoop rest (i + 1))

/-- The method `loadGame` (CHIP8.cpp 61-71). The argument is the content of the file,
`none` when the file cannot be opened (the stream is then never good). -/
def loadGame (file : Option (List Nat)) (s : CHIP8) : Option CHIP8 :=
  match file with
  | none => some s
  | some bytes => (loadLoop bytes 0x200 s.m_memory).map (fun mem => { s with m_memory := mem })

/-- The method `setKeys` (CHIP8.cpp 96-100); the `assert` and `.at()` both reject a key
above 15. -/
def setKeys (key : Nat) (state : Bool) (s : CHIP8) : Option CHIP8 :=
  (arrSet 16 s.m_key key state).map (fun k => { s with m_key := k })

/-- The register index `(m_opcode & 0x0F00) >> 8`. -/
def opX (s : CHIP8) : Nat := (s.m_opcode &&& 0x0F00) >>> 8

/-- The register index `(m_opcode & 0x00F0) >> 4`. -/
def opY (s : CHIP8) : Nat := (s.m_opcode &&& 0x00F0) >>> 4

/-- The statement `m_pc += 2` on the 16-bit program counter. -/
def skip (s : CHIP8) : CHIP8 := { s with m_pc := (s.m_pc + 2) % 65536 }

/-- Case 0x00E0, CLS (CHIP8.cpp 126-131). -/
def op_CLS (s : CHIP8) : Option (Bool × CHIP8) :=
  some (true, { s with m_gfx := fun _ => false, m_draw_flag := true })

/-- Case 0x00EE, RET (CHIP8.cpp 133-138): `m_pc = m_stack.at(m_sp); --m_sp;`. -/
def op_RET (s : CHIP8) : Option (Bool × CHIP8) :=
  (arrAt 16 s.m_stack s.m_sp).bind fun top =>
  some (true, { s with m_pc := top, m_sp := (s.m_sp + 65535) % 65536 })

/-- The default of the inner switch of case 0x0000 (CHIP8.cpp 141-145). -/
def op_0NNN (s : CHIP8) : Option (Bool × CHIP8) :=
  some (true, { s with cout := s.cout ++ [Output.notImplemented] })

/-- The other default branches (CHIP8.cpp 193, 298, 318, 411, 520, 528). -/
def op_unknown (s : CHIP8) : Option (Bool × CHIP8) :=
  some (true, { s with cout := s.cout ++ [Output.notRecognized s.m_opcode] })

/-- Case 0x1000, JP addr (CHIP8.cpp 151-155). -/
def op_JP (s : CHIP8) : Option (Bool × CHIP8) :=
  some (true, { s with m_pc := s.m_opcode &&& 0x0FFF })

/-- Case 0x2000, CALL addr (CHIP8.cpp 158-164):
`++m_sp; m_stack.at(m_sp) = m_pc; m_pc = m_opcode & 0x0FFF;`. -/
def op_CALL (s : CHIP8) : Option (Bool × CHIP8) :=
  let sp := (s.m_sp + 1) % 65536
  (arrSet 16 s.m_stack sp s.m_pc).bind fun stack =>
  some (true, { s with m_sp := sp, m_stack := stack, m_pc := s.m_opcode &&& 0x0FFF })

/-- Case 0x3000, SE Vx, byte (CHIP8.cpp 167-172). -/
def op_SE_byte (s : CHIP8) : Option (Bool × CHIP8) :=
  (arrAt 16 s.m_V (opX s)).bind fun vx =>
  some (true, if vx = (s.m_opcode &&& 0x00FF) then skip s else s)

/-- Case 0x4000, SNE Vx, byte (CHIP8.cpp 175-180). -/
def op_SNE_byte (s : CHIP8) : Option (Bool × CHIP8) :=
  (arrAt 16 s.m_V (opX s)).bind fun vx =>
  some (true, if vx ≠ (s.m_opcode &&& 0x00FF) then skip s else s)

/-- Case 0x5XY0, SE Vx, Vy (CHIP8.cpp 187-192). -/
def op_SE_reg (s : CHIP8) : Option (Bool × CHIP8) :=
  (arrAt 16 s.m_V (opX s)).bind fun vx =>
  (arrAt 16 s.m_V (opY s)).bind fun vy =>
  some (true, if vx = vy then skip s else s)

/-- Case 0x9XY0, SNE Vx, Vy (CHIP8.cpp 312-317). -/
def op_SNE_reg (s : CHIP8) : Option (Bool × CHIP8) :=
  (arrAt 16 s.m_V (opX s)).bind fun vx =>
  (arrAt 16 s.m_V (opY s)).bind fun vy =>
  some (true, if vx ≠ vy then skip s else s)

/-- Case 0x6000, LD Vx, byte (CHIP8.cpp 203-207). -/
def op_LD_byte (s : CHIP8) : Option (Bool × CHIP8) :=
  (arrSet 16 s.m_V (opX s) ((s.m_opcode &&& 0x00FF) % 256)).bind fun v =>
  some (true, { s with m_V := v })

/-- Case 0x7000, ADD Vx, byte (CHIP8.cpp 210-214). -/
def op_ADD_byte (s : CHIP8) : Option (Bool × CHIP8) :=
  (arrAt 16 s.m_V (opX s)).bind fun vx =>
  (arrSet 16 s.m_V (opX s) ((vx + (s.m_opcode &&& 0x00FF)) % 256)).bind fun v =>
  some (true, { s with m_V := v })

/-- Case 0x8XY0, LD Vx, Vy (CHIP8.cpp 221-225). -/
def op_LD_reg (s : CHIP8) : Option (Bool × CHIP8) :=
  (arrAt 16 s.m_V (opY s)).bind fun vy =>
  (arrSet 16 s.m_V (opX s) vy).bind fun v =>
  some (true, { s with m_V := v })

/-- Case 0x8XY1, OR Vx, Vy (CHIP8.cpp 228-232). -/
def op_OR (s : CHIP8) : Option (Bool × CHIP8) :=
  (arrAt 16 s.m_V (opX s)).bind fun vx =>
  (arrAt 16 s.m_V (opY s)).bind fun vy =>
  (arrSet 16 s.m_V (opX s) ((vx ||| vy) % 256)).bind fun v =>
  some (true, { s with m_V := v })

/-- Case 0x8XY2, AND Vx, Vy (CHIP8.cpp 235-239). -/
def op_AND (s : CHIP8) : Option (Bool × CHIP8) :=
  (arrAt 16 s.m_V (opX s)).bind fun vx =>
  (arrAt 16 s.m_V (opY s)).bind fun vy =>
  (arrSet 16 s.m_V (opX s) ((vx &&& vy) % 256)).bind fun v =>
  some (true, { s with m_V := v })

/-- Case 0x8XY3, XOR Vx, Vy (CHIP8.cpp 242-246). -/
def op_XOR (s : CHIP8) : Option (Bool × CHIP8) :=
  (arrAt 16 s.m_V (opX s)).bind fun vx =>
  (arrAt 16 s.m_V (opY s)).bind fun vy =>
  (arrSet 16 s.m_V (opX s) ((vx ^^^ vy) % 256)).bind fun v =>
  some (true, { s with m_V := v })

/-- Case 0x8XY4, ADD Vx, Vy (CHIP8.cpp 249-257): the flag is written to `m_V[0xF]`
first, from `Vy > 0xFF - Vx` (an `int` comparison; `Vx` is a byte, so the difference is
not negative), then `m_V.at(X) += m_V.at(Y)` reads the registers again. -/
def op_ADD_reg (s : CHIP8) : Option (Bool × CHIP8) :=
  (arrAt 16 s.m_V (opY s)).bind fun vy =>
  (arrAt 16 s.m_V (opX s)).bind fun vx =>
  (arrSet 16 s.m_V 0xF (if vy > 0xFF - vx then 1 else 0)).bind fun v1 =>
  (arrAt 16 v1 (opX s)).bind fun vx1 =>
  (arrAt 16 v1 (opY s)).bind fun vy1 =>
  (arrSet 16 v1 (opX s) ((vx1 + vy1) % 256)).bind fun v2 =>
  some (true, { s with m_V := v2 })

/-- Case 0x8XY5, SUB Vx, Vy (CHIP8.cpp 260-268): flag first, then
`m_V.at(X) -= m_V.at(Y)`, the `int` difference stored back into a byte. -/
def op_SUB (s : CHIP8) : Option (Bool × CHIP8) :=
  (arrAt 16 s.m_V (opX s)).bind fun vx =>
  (arrAt 16 s.m_V (opY s)).bind fun vy =>
  (arrSet 16 s.m_V 0xF (if vx < vy then 0 else 1)).bind fun v1 =>
  (arrAt 16 v1 (opX s)).bind fun vx1 =>
  (arrAt 16 v1 (opY s)).bind fun vy1 =>
  (arrSet 16 v1 (opX s) (((vx1 : Int) - (vy1 : Int)) % 256).toNat).bind fun v2 =>
  some (true, { s with m_V := v2 })

/-- Case 0x8XY6, SHR Vx (CHIP8.cpp 272-277): `m_V[0xF] = Vx & 0x01`, then
`m_V.at(X) >>= 1`. -/
def op_SHR (s : CHIP8) : Option (Bool × CHIP8) :=
  (arrAt 16 s.m_V (opX s)).bind fun vx =>
  (arrSet 16 s.m_V 0xF ((vx &&& 0x01) % 256)).bind fun v1 =>
  (arrAt 16 v1 (opX s)).bind fun vx1 =>
  (arrSet 16 v1 (opX s) ((vx1 >>> 1) % 256)).bind fun v2 =>
  some (true, { s with m_V := v2 })

/-- Case 0x8XY7, SUBN Vx, Vy (CHIP8.cpp 280-288): flag first, then
`m_V.at(X) = m_V.at(Y) - m_V.at(X)`. -/
def op_SUBN (s : CHIP8) : Option (Bool × CHIP8) :=
  (arrAt 16 s.m_V (opX s)).bind fun vx =>
  (arrAt 16 s.m_V (opY s)).bind fun vy =>
  (arrSet 16 s.m_V 0xF (if vx > vy then 0 else 1)).bind fun v1 =>
  (arrAt 16 v1 (opY s)).bind fun vy1 =>
  (arrAt 16 v1 (opX s)).bind fun vx1 =>
  (arrSet 16 v1 (opX s) (((vy1 : Int) - (vx1 : Int)) % 256).toNat).bind fun v2 =>
  some (true, { s with m_V := v2 })

/-- Case 0x8XYE, SHL Vx (CHIP8.cpp 292-297): `m_V[0xF] = Vx >> 7`, then
`m_V.at(X) <<= 1`. -/
def op_SHL (s : CHIP8) : Option (Bool × CHIP8) :=
  (arrAt 16 s.m_V (opX s)).bind fun vx =>
  (arrSet 16 s.m_V 0xF ((vx >>> 7) % 256)).bind fun v1 =>
  (arrAt 16 v1 (opX s)).bind fun vx1 =>
  (arrSet 16 v1 (opX s) ((vx1 <<< 1) % 256)).bind fun v2 =>
  some (true, { s with m_V := v2 })

/-- Case 0xA000, LD I, addr (CHIP8.cpp 328-332). -/
def op_LD_I (s : CHIP8) : Option (Bool × CHIP8) :=
  some (true, { s with m_I := s.m_opcode &&& 0x0FFF })

/-- Case 0xB000, JP V0, addr (CHIP8.cpp 335-339). -/
def op_JP_V0 (s : CHIP8) : Option (Bool × CHIP8) :=
  (arrAt 16 s.m_V 0x0).bind fun v0 =>
  some (true, { s with m_pc := ((s.m_opcode &&& 0x0FFF) + v0) % 65536 })

/-- Case 0xC000, RND Vx, byte (CHIP8.cpp 342-348); `random_number` is the value
drawn from the distribution over 0..0xFF. -/
def op_RND (random_number : Nat) (s : CHIP8) : Option (Bool × CHIP8) :=
  (arrSet 16 s.m_V (opX s) ((random_number &&& (s.m_opcode &&& 0x00FF)) % 256)).bind fun v =>
  some (true, { s with m_V := v })

/-- The inner loop of DRW (CHIP8.cpp 374-385) from column `x` on, with as many passes
left as the first argument says: `break` when the coordinate is off the buffer, otherwise
a set sprite bit raises `m_V[0xF]` on a lit cell and flips the cell. -/
def drwCols (pixel_byte x_coordinate y_coordinate y : Nat) : Nat → Nat → CHIP8 → Option CHIP8
  | 0, _, s => some s
  | n + 1, x, s =>
    let coordinate := x_coordinate + x + ((y_coordinate + y) * 64)
    if coordinate ≥ 2048 then some s
    else if (pixel_byte &&& (0x80 >>> x)) ≠ 0 then
      (arrAt 2048 s.m_gfx coordinate).bind fun lit =>
      (if lit = true then arrSet 16 s.m_V 0xF 1 else some s.m_V).bind fun v =>
      (arrSet 2048 s.m_gfx coordinate (xor lit true)).bind fun gfx =>
      drwCols pixel_byte x_coordinate y_coordinate y n (x + 1) { s with m_V := v, m_gfx := gfx }
    else drwCols pixel_byte x_coordinate y_coordinate y n (x + 1) s

/-- The outer loop of DRW (CHIP8.cpp 371-386) from row `y` on: the sprite byte is read
with `m_memory.at(m_I+y)`, then the eight columns are drawn. -/
def drwRows (x_coordinate y_coordinate : Nat) : Nat → Nat → CHIP8 → Option CHIP8
  | 0, _, s => some s
  | n + 1, y, s =>
    (arrAt 4096 s.m_memory (s.m_I + y)).bind fun pixel_byte =>
    (drwCols pixel_byte x_coordinate y_coordinate y 8 0 s).bind fun s1 =>
    drwRows x_coordinate y_coordinate n (y + 1) s1

/-- Case 0xD000, DRW Vx, Vy, nibble (CHIP8.cpp 355-390). -/
def op_DRW (s : CHIP8) : Option (Bool × CHIP8) :=
  (arrAt 16 s.m_V (opX s)).bind fun vx =>
  (arrAt 16 s.m_V (opY s)).bind fun vy =>
  let x_coordinate := vx % 64
  let y_coordinate := vy % 32
  let rows := s.m_opcode &&& 0x000F
  (arrSet 16 s.m_V 0xF 0).bind fun v =>
  (drwRows x_coordinate y_coordinate rows 0 { s with m_V := v }).bind fun s1 =>
  some (true, { s1 with m_draw_flag := true })

/-- Case 0xEX9E, SKP Vx (CHIP8.cpp 397-402). -/
def op_SKP (s : CHIP8) : Option (Bool × CHIP8) :=
  (arrAt 16 s.m_V (opX s)).bind fun vx =>
  (arrAt 16 s.m_key vx).bind fun k =>
  some (true, if k = true then skip s else s)

/-- Case 0xEXA1, SKNP Vx (CHIP8.cpp 405-410). -/
def op_SKNP (s : CHIP8) : Option (Bool × CHIP8) :=
  (arrAt 16 s.m_V (opX s)).bind fun vx =>
  (arrAt 16 s.m_key vx).bind fun k =>
  some (true, if k = false then skip s else s)

/-- Case 0xFX07, LD Vx, DT (CHIP8.cpp 425-429). -/
def op_LD_Vx_DT (s : CHIP8) : Option (Bool × CHIP8) :=
  (arrSet 16 s.m_V (opX s) s.m_delay_timer).bind fun v =>
  some (true, { s with m_V := v })

/-- The key scan of case 0xFX0A (CHIP8.cpp 435-443) from key `i` on; the Boolean is
the local `key_pressed`. -/
def keyLoop : Nat → Nat → CHIP8 → Option (Bool × CHIP8)
  | 0, _, s => some (false, s)
  | n + 1, i, s =>
    (arrAt 16 s.m_key i).bind fun k =>
    if k = true then
      (arrSet 16 s.m_V (opX s) (i % 256)).bind fun v => some (true, { s with m_V := v })
    else keyLoop n (i + 1) s

/-- Case 0xFX0A, LD Vx, K (CHIP8.cpp 432-450): without a pressed key `m_pc -= 2` and
`return false`. -/
def op_LD_Vx_K (s : CHIP8) : Option (Bool × CHIP8) :=
  (keyLoop 16 0 s).bind fun r =>
  if r.1 = false then some (false, { r.2 with m_pc := (r.2.m_pc + 65534) % 65536 })
  else some (true, r.2)

/-- Case 0xFX15, LD DT, Vx (CHIP8.cpp 453-457). -/
def op_LD_DT_Vx (s : CHIP8) : Option (Bool × CHIP8) :=
  (arrAt 16 s.m_V (opX s)).bind fun vx =>
  some (true, { s with m_delay_timer := vx })

/-- Case 0xFX18, LD ST, Vx (CHIP8.cpp 460-464). -/
def op_LD_ST_Vx (s : CHIP8) : Option (Bool × CHIP8) :=
  (arrAt 16 s.m_V (opX s)).bind fun vx =>
  some (true, { s with m_sound_timer := vx })

/-- Case 0xFX1E, ADD I, Vx (CHIP8.cpp 467-477): flag first, then `m_I += m_V.at(X)`
reads the register again. -/
def op_ADD_I (s : CHIP8) : Option (Bool × CHIP8) :=
  (arrAt 16 s.m_V (opX s)).bind fun vx =>
  (arrSet 16 s.m_V 0xF (if s.m_I + vx > 0xFFF then 1 else 0)).bind fun v1 =>
  (arrAt 16 v1 (opX s)).bind fun vx1 =>
  some (true, { s with m_V := v1, m_I := (s.m_I + vx1) % 65536 })

/-- Case 0xFX29, LD F, Vx (CHIP8.cpp 481-486). -/
def op_LD_F (s : CHIP8) : Option (Bool × CHIP8) :=
  (arrAt 16 s.m_V (opX s)).bind fun vx =>
  some (true, { s with m_I := (vx * 5) % 65536 })

/-- Case 0xFX33, LD B, Vx (CHIP8.cpp 492-498). -/
def op_LD_B (s : CHIP8) : Option (Bool × CHIP8) :=
  (arrAt 16 s.m_V (opX s)).bind fun vx =>
  (arrSet 4096 s.m_memory s.m_I (((vx % 1000) / 100) % 256)).bind fun m1 =>
  (arrSet 4096 m1 (s.m_I + 1) (((vx % 100) / 10) % 256)).bind fun m2 =>
  (arrSet 4096 m2 (s.m_I + 2) ((vx % 10) % 256)).bind fun m3 =>
  some (true, { s with m_memory := m3 })

/-- The loop of case 0xFX55 (CHIP8.cpp 504-505) from register `i` on:
`m_memory.at(m_I+i) = m_V.at(i)`. -/
def storeLoop : Nat → Nat → CHIP8 → Option CHIP8
  | 0, _, s => some s
  | n + 1, i, s =>
    (arrAt 16 s.m_V i).bind fun vi =>
    (arrSet 4096 s.m_memory (s.m_I + i) vi).bind fun mem =>
    storeLoop n (i + 1) { s with m_memory := mem }

/-- Case 0xFX55, LD [I], Vx (CHIP8.cpp 501-509): the loop runs for `i = 0..end`, then
`m_I += end + 1`. -/
def op_LD_mem_Vx (s : CHIP8) : Option (Bool × CHIP8) :=
  let end_ := opX s
  (storeLoop (end_ + 1) 0 s).bind fun s1 =>
  some (true, { s1 with m_I := (s1.m_I + (end_ + 1)) % 65536 })

/-- The loop of case 0xFX65 (CHIP8.cpp 515-516) from register `i` on:
`m_V.at(i) = m_memory.at(m_I+i)`. -/
def loadLoopV : Nat → Nat → CHIP8 → Option CHIP8
  | 0, _, s => some s
  | n + 1, i, s =>
    (arrAt 4096 s.m_memory (s.m_I + i)).bind fun b =>
    (arrSet 16 s.m_V i b).bind fun v =>
    loadLoopV n (i + 1) { s with m_V := v }

/-- Case 0xFX65, LD Vx, [I] (CHIP8.cpp 512-519). -/
def op_LD_Vx_mem (s : CHIP8) : Option (Bool × CHIP8) :=
  let end_ := opX s
  (loadLoopV (end_ + 1) 0 s).bind fun s1 =>
  some (true, { s1 with m_I := (s1.m_I + (end_ + 1)) % 65536 })

/-- The method `decodeOpcode` (CHIP8.cpp 117-535). Each `switch` is the chain of
comparisons with its case constants; the Boolean is the return value. -/
def decodeOpcode (random_number : Nat) (s : CHIP8) : Option (Bool × CHIP8) :=
  let category := s.m_opcode &&& 0xF000
  if category = 0x0000 then
    if s.m_opcode = 0x00E0 then op_CLS s
    else if s.m_opcode = 0x00EE then op_RET s
    else op_0NNN s
  else if category = 0x1000 then op_JP s
  else if category = 0x2000 then op_CALL s
  else if category = 0x3000 then op_SE_byte s
  else if category = 0x4000 then op_SNE_byte s
  else if category = 0x5000 then
    if s.m_opcode &&& 0x000F = 0x0000 then op_SE_reg s else op_unknown s
  else if category = 0x6000 then op_LD_byte s
  else if category = 0x7000 then op_ADD_byte s
  else if category = 0x8000 then
    let sub := s.m_opcode &&& 0x000F
    if sub = 0x0000 then op_LD_reg s
    else if sub = 0x0001 then op_OR s
    else if sub = 0x0002 then op_AND s
    else if sub = 0x0003 then op_XOR s
    else if sub = 0x0004 then op_ADD_reg s
    else if sub = 0x0005 then op_SUB s
    else if sub = 0x0006 then op_SHR s
    else if sub = 0x0007 then op_SUBN s
    else if sub = 0x000E then op_SHL s
    else op_unknown s
  else if category = 0x9000 then
    if s.m_opcode &&& 0x000F = 0x0000 then op_SNE_reg s else op_unknown s
  else if category = 0xA000 then op_LD_I s
  else if category = 0xB000 then op_JP_V0 s
  else if category = 0xC000 then op_RND random_number s
  else if category = 0xD000 then op_DRW s
  else if category = 0xE000 then
    let sub := s.m_opcode &&& 0x00FF
    if sub = 0x009E then op_SKP s
    else if sub = 0x00A1 then op_SKNP s
    else op_unknown s
  else if category = 0xF000 then
    let sub := s.m_opcode &&& 0x00FF
    if sub = 0x0007 then op_LD_Vx_DT s
    else if sub = 0x000A then op_LD_Vx_K s
    else if sub = 0x0015 then op_LD_DT_Vx s
    else if sub = 0x0018 then op_LD_ST_Vx s
    else if sub = 0x001E then op_ADD_I s
    else if sub = 0x0029 then op_LD_F s
    else if sub = 0x0033 then op_LD_B s
    else if sub = 0x0055 then op_LD_mem_Vx s
    else if sub = 0x0065 then op_LD_Vx_mem s
    else op_unknown s
  else op_unknown s

/-- The timer update that ends a completed cycle (CHIP8.cpp 85-93). -/
def updateTimers (s : CHIP8) : CHIP8 :=
  let s1 := if s.m_delay_timer > 0 then { s with m_delay_timer := s.m_delay_timer - 1 } else s
  if s1.m_sound_timer > 0 then
    let s2 := if s1.m_sound_timer = 1 then { s1 with cout := s1.cout ++ [Output.beep] } else s1
    { s2 with m_sound_timer := s2.m_sound_timer - 1 }
  else s1

/-- The method `emulateCycle` (CHIP8.cpp 73-94): fetch with `m_memory.at(m_pc)` and
`m_memory.at(m_pc+1)`, `m_pc += 2`, decode, and the timer update unless
`decodeOpcode` returned false. -/
def emulateCycle (random_number : Nat) (s : CHIP8) : Option CHIP8 :=
  (arrAt 4096 s.m_memory s.m_pc).bind fun hi =>
  (arrAt 4096 s.m_memory (s.m_pc + 1)).bind fun lo =>
  let s1 := { s with m_opcode := ((hi <<< 8) ||| lo) % 65536, m_pc := (s.m_pc + 2) % 65536 }
  (decodeOpcode random_number s1).bind fun r =>
  if r.1 = false then some r.2 else some (updateTimers r.2)

/-- Run `n` cycles one after the other, the `k`-th with the random byte `rnd k`; the
run stops at the first fault. -/
def run (rnd : Nat → Nat) : Nat → CHIP8 → Option CHIP8
  | 0, s => some s
  | n + 1, s => (emulateCycle (rnd 0) s).bind (run (fun k => rnd (k + 1)) n)

/-- The values the member types allow: bytes in `m_memory`, `m_V` and the timers,
16-bit values in `m_opcode`, `m_I`, `m_pc`, `m_sp` and `m_stack`. -/
structure WF (s : CHIP8) : Prop where
  opcode_lt : s.m_opcode < 65536
  memory_lt : ∀ a, a < 4096 → s.m_memory a < 256
  V_lt : ∀ i, i < 16 → s.m_V i < 256
  I_lt : s.m_I < 65536
  pc_lt : s.m_pc < 65536
  delay_lt : s.m_delay_timer < 256
  sound_lt : s.m_sound_timer < 256
  stack_lt : ∀ i, i < 16 → s.m_stack i < 65536
  sp_lt : s.m_sp < 65536

/-- The two bytes at `m_pc` and `m_pc + 1` are inside the memory and are the
big-endian halves of `op`: the opcode the next cycle fetches. -/
def fetches (s : CHIP8) (op : Nat) : Prop :=
  s.m_pc + 1 < 4096 ∧ s.m_memory s.m_pc = op / 256 ∧ s.m_memory (s.m_pc + 1) = op % 256

/-- A machine as the constructor leaves it, with the bytes `prog` in memory from
address 0x200 on (where `loadGame` puts a program), the registers `regs` in
`m_V[0]`, `m_V[1]`, ... and `index` in `m_I`: the concrete inputs of the examples. -/
def machine (prog regs : List Nat) (index : Nat) : CHIP8 :=
  { ctor with
    m_memory := fun a => if 0x200 ≤ a then prog.getD (a - 0x200) 0 else ctor.m_memory a
    m_V := fun i => regs.getD i 0
    m_I := index }

/-- The opcodes outside the implemented set: 0x0NNN other than 0x00E0 and 0x00EE,
0x5XYn and 0x9XYn with n not 0, 0x8XYn with n in 8..0xD or n = 0xF, 0xEXnn other than
9E and A1, 0xFXnn other than 07, 0A, 15, 18, 1E, 29, 33, 55, 65. -/
def unknownOpcode (op : Nat) : Prop :=
  (op / 4096 = 0x0 ∧ op ≠ 0x00E0 ∧ op ≠ 0x00EE) ∨
  ((op / 4096 = 0x5 ∨ op / 4096 = 0x9) ∧ op % 16 ≠ 0) ∨
  (op / 4096 = 0x8 ∧ ((8 ≤ op % 16 ∧ op % 16 ≤ 0xD) ∨ op % 16 = 0xF)) ∨
  (op / 4096 = 0xE ∧ op % 256 ≠ 0x9E ∧ op % 256 ≠ 0xA1) ∨
  (op / 4096 = 0xF ∧ op % 256 ≠ 0x07 ∧ op % 256 ≠ 0x0A ∧ op % 256 ≠ 0x15 ∧
    op % 256 ≠ 0x18 ∧ op % 256 ≠ 0x1E ∧ op % 256 ≠ 0x29 ∧ op % 256 ≠ 0x33 ∧
    op % 256 ≠ 0x55 ∧ op % 256 ≠ 0x65)

/-- Cell `c` is on the buffer and is the target of a set bit of the sprite byte
`pixel_byte` among the columns `x .. x+n-1` of a row whose column 0 is the cell `base`. -/
def colsHit (pixel_byte base x n c : Nat) : Bool :=
  decide (c < 2048 ∧ base + x ≤ c ∧ c < base + x + n) &&
    (pixel_byte &&& (0x80 >>> (c - base)) != 0)

/-- Cell `c` is the target of a set sprite bit in one of the `n` sprite rows from row
`y` on, for the sprite at `index` in `mem` drawn at `(x_coordinate, y_coordinate)`. -/
def rowsHit (mem : Nat → Nat) (index x_coordinate y_coordinate : Nat) : Nat → Nat → Nat → Bool
  | 0, _, _ => false
  | n + 1, y, c =>
    colsHit (mem (index + y)) (x_coordinate + (y_coordinate + y) * 64) 0 8 c ||
      rowsHit mem index x_coordinate y_coordinate n (y + 1) c

/-- The method `draw_flag(bool)`, the setter (CHIP8.cpp 112-115). -/
def set_draw_flag (draw_flag : Bool) (s : CHIP8) : CHIP8 := { s with m_draw_flag := draw_flag }

/-- The states the program of Main.cpp can bring the machine to: construction and
`loadGame` on some file (Main.cpp 240), then any number of completed cycles with any
random bytes, `setKeys` calls with any key events, and `draw_flag(false)` after a
frame (Main.cpp 243-253, 99). -/
inductive Reachable : CHIP8 → Prop
  | load (file : Option (List Nat)) (s : CHIP8) : loadGame file ctor = some s → Reachable s
  | cycle (r : Nat) (s s1 : CHIP8) : Reachable s → emulateCycle r s = some s1 → Reachable s1
  | keys (key : Nat) (state : Bool) (s s1 : CHIP8) :
      Reachable s → setKeys key state s = some s1 → Reachable s1
  | drawn (s : CHIP8) : Reachable s → Reachable (set_draw_flag false s)

/-- A ROM of fifteen calls, each to the instruction that follows it (CALL 0x202 at
0x200, CALL 0x204 at 0x202, ..., CALL 0x21E at 0x21C), then CALL 0x222 at 0x21E, two
bytes never executed, and RET (00 EE) at 0x222: the input of the example on a call
made with fifteen return addresses on the stack. -/
def fifteenCallsRom : List Nat :=
  [0x22, 0x02, 0x22, 0x04, 0x22, 0x06, 0x22, 0x08, 0x22, 0x0A, 0x22, 0x0C, 0x22, 0x0E,
   0x22, 0x10, 0x22, 0x12, 0x22, 0x14, 0x22, 0x16, 0x22, 0x18, 0x22, 0x1A, 0x22, 0x1C,
   0x22, 0x1E, 0x22, 0x22, 0x00, 0x00, 0x00, 0xEE]

/-! ## Bit fields of an opcode, array access, and the fetch -/

theorem land_0FFF (op : Nat) : op &&& 0x0FFF = op % 4096 := Nat.and_pow_two_sub_one_eq_mod op 12
theorem land_00FF (op : Nat) : op &&& 0x00FF = op % 256 := Nat.and_pow_two_sub_one_eq_mod op 8
theorem land_000F (op : Nat) : op &&& 0x000F = op % 16 := Nat.and_pow_two_sub_one_eq_mod op 4
theorem land_shl_mask (op k : Nat) : op &&& (0xF <<< k) = ((op >>> k) &&& 0xF) <<< k := by
  apply Nat.eq_of_testBit_eq
  intro j
  simp only [Nat.testBit_and, Nat.testBit_shiftLeft, Nat.testBit_shiftRight]
  by_cases hj : k ≤ j
  · have : k + (j - k) = j := by omega
    simp [hj, this]
  · simp [hj]
theorem land_nibble (op k : Nat) : op &&& (0xF <<< k) = (op / 2 ^ k % 16) * 2 ^ k := by
  rw [land_shl_mask, Nat.shiftLeft_eq, Nat.shiftRight_eq_div_pow]
  congr 1
  exact Nat.and_pow_two_sub_one_eq_mod _ 4
theorem land_F000 (op : Nat) : op &&& 0xF000 = (op / 4096 % 16) * 4096 := land_nibble op 12
theorem land_0F00_shr (op : Nat) : (op &&& 0x0F00) >>> 8 = op / 256 % 16 := by
  have h : op &&& 0x0F00 = (op / 256 % 16) * 256 := land_nibble op 8
  rw [h, Nat.shiftRight_eq_div_pow]
  omega
theorem land_00F0_shr (op : Nat) : (op &&& 0x00F0) >>> 4 = op / 16 % 16 := by
  have h : op &&& 0x00F0 = (op / 16 % 16) * 16 := land_nibble op 4
  rw [h, Nat.shiftRight_eq_div_pow]
  omega
theorem shl8_or (hi lo : Nat) (h : lo < 256) : (hi <<< 8 ||| lo) = hi * 256 + lo := by
  rw [Nat.shiftLeft_eq, Nat.mul_comm]
  exact (Nat.mul_add_lt_is_or (i := 8) (b := lo) (by simpa using h) hi).symm

theorem arrAt_lt {α : Type} {n i : Nat} (a : Nat → α) (h : i < n) : arrAt n a i = some (a i) := by
  simp [arrAt, h]

theorem arrSet_lt {α : Type} {n i : Nat} (a : Nat → α) (v : α) (h : i < n) :
    arrSet n a i v = some (store a i v) := by
  simp [arrSet, h]

theorem opX_lt (s : CHIP8) : opX s < 16 := by
  unfold opX; rw [land_0F00_shr]; omega

theorem opY_lt (s : CHIP8) : opY s < 16 := by
  unfold opY; rw [land_00F0_shr]; omega

/-- The fetch half of a cycle: with the two opcode bytes in memory the cycle decodes
`op` with the program counter already advanced. -/
theorem emulateCycle_of_fetches (r : Nat) (s : CHIP8) (op : Nat)
    (hmem : ∀ a, a < 4096 → s.m_memory a < 256) (hf : fetches s op) :
    emulateCycle r s =
      (decodeOpcode r { s with m_opcode := op, m_pc := s.m_pc + 2 }).bind fun d =>
        if d.1 = false then some d.2 else some (updateTimers d.2) := by
  obtain ⟨hpc, hhi, hlo⟩ := hf
  have hlt : s.m_memory (s.m_pc + 1) < 256 := hmem _ hpc
  have hhilt : s.m_memory s.m_pc < 256 := hmem _ (by omega)
  have hop : (s.m_memory s.m_pc <<< 8 ||| s.m_memory (s.m_pc + 1)) % 65536 = op := by
    rw [shl8_or _ _ hlt, hhi, hlo]
    rw [hhi] at hhilt
    omega
  have hpc2 : (s.m_pc + 2) % 65536 = s.m_pc + 2 := by omega
  unfold emulateCycle
  rw [arrAt_lt _ (by omega : s.m_pc < 4096), arrAt_lt _ hpc]
  simp only [Option.some_bind, hop, hpc2]

/-! ## The timer update touches the timers and the output only -/

@[simp] theorem updateTimers_m_opcode (s : CHIP8) : (updateTimers s).m_opcode = s.m_opcode := by
  unfold updateTimers; dsimp only; split_ifs <;> rfl

@[simp] theorem updateTimers_m_memory (s : CHIP8) : (updateTimers s).m_memory = s.m_memory := by
  unfold updateTimers; dsimp only; split_ifs <;> rfl

@[simp] theorem updateTimers_m_V (s : CHIP8) : (updateTimers s).m_V = s.m_V := by
  unfold updateTimers; dsimp only; split_ifs <;> rfl

@[simp] theorem updateTimers_m_I (s : CHIP8) : (updateTimers s).m_I = s.m_I := by
  unfold updateTimers; dsimp only; split_ifs <;> rfl

@[simp] theorem updateTimers_m_pc (s : CHIP8) : (updateTimers s).m_pc = s.m_pc := by
  unfold updateTimers; dsimp only; split_ifs <;> rfl

@[simp] theorem updateTimers_m_gfx (s : CHIP8) : (updateTimers s).m_gfx = s.m_gfx := by
  unfold updateTimers; dsimp only; split_ifs <;> rfl

@[simp] theorem updateTimers_m_stack (s : CHIP8) : (updateTimers s).m_stack = s.m_stack := by
  unfold updateTimers; dsimp only; split_ifs <;> rfl

@[simp] theorem updateTimers_m_sp (s : CHIP8) : (updateTimers s).m_sp = s.m_sp := by
  unfold updateTimers; dsimp only; split_ifs <;> rfl

@[simp] theorem updateTimers_m_key (s : CHIP8) : (updateTimers s).m_key = s.m_key := by
  unfold updateTimers; dsimp only; split_ifs <;> rfl

@[simp] theorem updateTimers_m_draw_flag (s : CHIP8) :
    (updateTimers s).m_draw_flag = s.m_draw_flag := by
  unfold updateTimers; dsimp only; split_ifs <;> rfl

/-! ## Concrete machines are well formed -/

theorem getD_lt_256 (l : List Nat) (h : ∀ b ∈ l, b < 256) (i : Nat) : l.getD i 0 < 256 := by
  induction l generalizing i with
  | nil => simp
  | cons b rest ih =>
    cases i with
    | zero => simpa using h b (List.mem_cons_self _ _)
    | succ k => simpa using ih (fun c hc => h c (List.mem_cons_of_mem _ hc)) k

theorem fontset_lt_256 : ∀ b ∈ fontset, b < 256 := by decide

theorem WF_ctor : WF ctor where
  opcode_lt := by decide
  memory_lt := by
    intro a _
    simp only [ctor]
    split_ifs
    · exact getD_lt_256 _ fontset_lt_256 a
    · decide
  V_lt := by intro i _; simp [ctor]
  I_lt := by decide
  pc_lt := by decide
  delay_lt := by decide
  sound_lt := by decide
  stack_lt := by intro i _; simp [ctor]
  sp_lt := by decide

theorem WF_machine (prog regs : List Nat) (index : Nat) (hprog : ∀ b ∈ prog, b < 256)
    (hregs : ∀ b ∈ regs, b < 256) (hindex : index < 65536) :
    WF (machine prog regs index) where
  opcode_lt := by simp [machine, ctor]
  memory_lt := by
    intro a ha
    simp only [machine]
    split_ifs
    · exact getD_lt_256 _ hprog _
    · exact WF_ctor.memory_lt a ha
  V_lt := by intro i _; exact getD_lt_256 _ hregs i
  I_lt := hindex
  pc_lt := by simp [machine, ctor]
  delay_lt := by simp [machine, ctor]
  sound_lt := by simp [machine, ctor]
  stack_lt := by intro i _; simp [machine, ctor]
  sp_lt := by simp [machine, ctor]

/-! ## Decoding -/

/-- A completed instruction: the cycle is the fetch, the decoded effect `d`, and
the timer update. -/
theorem emulateCycle_of_decode (r : Nat) (s d : CHIP8) (op : Nat)
    (hmem : ∀ a, a < 4096 → s.m_memory a < 256) (hf : fetches s op)
    (hd : decodeOpcode r { s with m_opcode := op, m_pc := s.m_pc + 2 } = some (true, d)) :
    emulateCycle r s = some (updateTimers d) := by
  rw [emulateCycle_of_fetches r s op hmem hf, hd]
  simp

theorem opX_eq (s : CHIP8) (X : Nat) (h : s.m_opcode / 256 % 16 = X) : opX s = X := by
  unfold opX; rw [land_0F00_shr]; exact h

theorem opY_eq (s : CHIP8) (Y : Nat) (h : s.m_opcode / 16 % 16 = Y) : opY s = Y := by
  unfold opY; rw [land_00F0_shr]; exact h

theorem decode_CALL (r : Nat) (s : CHIP8) (h : s.m_opcode / 4096 % 16 = 2) :
    decodeOpcode r s = op_CALL s := by
  simp [decodeOpcode, land_F000, h]

theorem decode_RET (r : Nat) (s : CHIP8) (h : s.m_opcode = 0x00EE) :
    decodeOpcode r s = op_RET s := by
  simp [decodeOpcode, h, land_F000]

theorem decode_8 (r : Nat) (s : CHIP8) (h : s.m_opcode / 4096 % 16 = 8) :
    decodeOpcode r s =
      if s.m_opcode % 16 = 0 then op_LD_reg s
      else if s.m_opcode % 16 = 1 then op_OR s
      else if s.m_opcode % 16 = 2 then op_AND s
      else if s.m_opcode % 16 = 3 then op_XOR s
      else if s.m_opcode % 16 = 4 then op_ADD_reg s
      else if s.m_opcode % 16 = 5 then op_SUB s
      else if s.m_opcode % 16 = 6 then op_SHR s
      else if s.m_opcode % 16 = 7 then op_SUBN s
      else if s.m_opcode % 16 = 14 then op_SHL s
      else op_unknown s := by
  simp [decodeOpcode, land_F000, land_000F, h]

/-- One cycle on a fetched CALL with room on the stack. -/
theorem cycle_CALL (r : Nat) (s : CHIP8) (NNN : Nat)
    (hmem : ∀ a, a < 4096 → s.m_memory a < 256) (hN : NNN < 4096)
    (hcall : fetches s (0x2000 + NNN)) (hroom : s.m_sp + 1 < 16) :
    emulateCycle r s = some (updateTimers { s with
      m_opcode := 0x2000 + NNN, m_sp := s.m_sp + 1,
      m_stack := store s.m_stack (s.m_sp + 1) (s.m_pc + 2), m_pc := NNN }) := by
  rw [emulateCycle_of_fetches r s _ hmem hcall, decode_CALL _ _ (by simp; omega)]
  have hsp : (s.m_sp + 1) % 65536 = s.m_sp + 1 := by omega
  have hN2 : (0x2000 + NNN) % 4096 = NNN := by omega
  simp [op_CALL, hsp, arrSet_lt _ _ hroom, land_0FFF, hN2]

/-- One cycle on a fetched RET whose stack pointer is an index of the stack. -/
theorem cycle_RET (r : Nat) (s : CHIP8)
    (hmem : ∀ a, a < 4096 → s.m_memory a < 256)
    (hret : fetches s 0x00EE) (hsp : s.m_sp < 16) :
    emulateCycle r s = some (updateTimers { s with
      m_opcode := 0x00EE, m_pc := s.m_stack s.m_sp, m_sp := (s.m_sp + 65535) % 65536 }) := by
  rw [emulateCycle_of_fetches r s _ hmem hret, decode_RET _ _ rfl]
  simp [op_RET, arrAt_lt _ hsp]

/-- Call and return with at most fourteen return addresses on the stack
(`m_sp + 1 < 16`: the slot the call writes exists): with a CALL NNN fetched at
`p = m_pc` and the bytes 0x00, 0xEE at NNN, the call cycle followed by the return cycle
both complete, the call lands on NNN, and afterwards `m_pc = p + 2` and `m_sp` is what
it was before the call. With fifteen addresses on the stack (`m_sp = 15`) the
hypothesis fails, and so does the call. -/
theorem call_ret_round_trip (r1 r2 : Nat) (s : CHIP8) (NNN : Nat)
    (hwf : WF s) (hN : NNN < 4096)
    (hcall : fetches s (0x2000 + NNN))
    (hret : NNN + 1 < 4096 ∧ s.m_memory NNN = 0x00 ∧ s.m_memory (NNN + 1) = 0xEE)
    (hroom : s.m_sp + 1 < 16) :
    ∃ s1 s2, emulateCycle r1 s = some s1 ∧ emulateCycle r2 s1 = some s2 ∧
      s1.m_pc = NNN ∧ s2.m_pc = s.m_pc + 2 ∧ s2.m_sp = s.m_sp := by
  have e1 := cycle_CALL r1 s NNN hwf.memory_lt hN hcall hroom
  refine ⟨_, _, e1, cycle_RET r2 _ ?_ ?_ ?_, ?_, ?_, ?_⟩
  · simpa using hwf.memory_lt
  · simpa [fetches] using hret
  · simpa using hroom
  · simp
  · simp [store]
  · simp; omega

/-- The program `CALL 0x204; ...; RET` (bytes 22 04 00 00 00 EE) on a fresh machine:
the two cycles end with `m_pc = 0x202` and `m_sp = 0`. -/
theorem call_ret_round_trip_witness :
    ∃ s1 s2, emulateCycle 0 (machine [0x22, 0x04, 0, 0, 0x00, 0xEE] [] 0) = some s1 ∧
      emulateCycle 0 s1 = some s2 ∧ s1.m_pc = 0x204 ∧ s2.m_pc = 0x202 ∧ s2.m_sp = 0 :=
  call_ret_round_trip 0 0 (machine [0x22, 0x04, 0, 0, 0x00, 0xEE] [] 0) 0x204
    (WF_machine _ _ _ (by decide) (by decide) (by decide)) (by decide)
    (by unfold fetches; decide) (by decide) (by decide)

/-! ## The loops of 0xFX55, 0xFX65 and 0xFX0A -/

theorem decode_F (r : Nat) (s : CHIP8) (h : s.m_opcode / 4096 % 16 = 15) :
    decodeOpcode r s =
      if s.m_opcode % 256 = 0x07 then op_LD_Vx_DT s
      else if s.m_opcode % 256 = 0x0A then op_LD_Vx_K s
      else if s.m_opcode % 256 = 0x15 then op_LD_DT_Vx s
      else if s.m_opcode % 256 = 0x18 then op_LD_ST_Vx s
      else if s.m_opcode % 256 = 0x1E then op_ADD_I s
      else if s.m_opcode % 256 = 0x29 then op_LD_F s
      else if s.m_opcode % 256 = 0x33 then op_LD_B s
      else if s.m_opcode % 256 = 0x55 then op_LD_mem_Vx s
      else if s.m_opcode % 256 = 0x65 then op_LD_Vx_mem s
      else op_unknown s := by
  simp [decodeOpcode, land_F000, land_00FF, h]

theorem storeLoop_eq (n : Nat) : ∀ (i : Nat) (s : CHIP8), i + n ≤ 16 → s.m_I + i + n ≤ 4096 →
    storeLoop n i s = some { s with m_memory := fun a =>
      if s.m_I + i ≤ a ∧ a < s.m_I + i + n then s.m_V (a - s.m_I) else s.m_memory a } := by
  induction n with
  | zero =>
    intro i s _ _
    have : (fun a => if s.m_I + i ≤ a ∧ a < s.m_I + i + 0 then s.m_V (a - s.m_I)
        else s.m_memory a) = s.m_memory := by
      funext a
      rw [if_neg (by omega)]
    rw [this]
    rfl
  | succ n ih =>
    intro i s hi hm
    have hi16 : i < 16 := by omega
    have ha : s.m_I + i < 4096 := by omega
    simp only [storeLoop, arrAt_lt _ hi16, arrSet_lt _ _ ha, Option.some_bind]
    rw [ih (i + 1) _ (by omega) (by simp; omega)]
    simp only [Option.some.injEq]
    congr 1
    funext a
    simp only [store]
    by_cases h1 : s.m_I + (i + 1) ≤ a ∧ a < s.m_I + (i + 1) + n
    · rw [if_pos h1, if_pos (by omega)]
    · rw [if_neg h1]
      by_cases h2 : a = s.m_I + i
      · rw [if_pos h2, if_pos (by omega)]
        congr 1; omega
      · rw [if_neg h2, if_neg (by omega)]

theorem loadLoopV_eq (n : Nat) : ∀ (i : Nat) (s : CHIP8), i + n ≤ 16 → s.m_I + i + n ≤ 4096 →
    loadLoopV n i s = some { s with m_V := fun j =>
      if i ≤ j ∧ j < i + n then s.m_memory (s.m_I + j) else s.m_V j } := by
  induction n with
  | zero =>
    intro i s _ _
    have : (fun j => if i ≤ j ∧ j < i + 0 then s.m_memory (s.m_I + j) else s.m_V j)
        = s.m_V := by
      funext j
      rw [if_neg (by omega)]
    rw [this]
    rfl
  | succ n ih =>
    intro i s hi hm
    have hi16 : i < 16 := by omega
    have ha : s.m_I + i < 4096 := by omega
    simp only [loadLoopV, arrAt_lt _ ha, arrSet_lt _ _ hi16, Option.some_bind]
    rw [ih (i + 1) _ (by omega) (by simp; omega)]
    simp only [Option.some.injEq]
    congr 1
    funext j
    simp only [store]
    by_cases h1 : i + 1 ≤ j ∧ j < i + 1 + n
    · rw [if_pos h1, if_pos (by omega)]
    · rw [if_neg h1]
      by_cases h2 : j = i
      · rw [if_pos h2, if_pos (by omega), h2]
      · rw [if_neg h2, if_neg (by omega)]

theorem keyLoop_released (n : Nat) : ∀ (i : Nat) (s : CHIP8), i + n ≤ 16 →
    (∀ k, k < 16 → s.m_key k = false) → keyLoop n i s = some (false, s) := by
  induction n with
  | zero => intro i s _ _; rfl
  | succ n ih =>
    intro i s hi hk
    have hi16 : i < 16 := by omega
    simp only [keyLoop, arrAt_lt _ hi16, Option.some_bind, hk i hi16]
    simpa using ih (i + 1) s (by omega) hk

/-- One cycle on a fetched 0xFX55 whose block lies inside the memory. -/
theorem cycle_store (r : Nat) (s : CHIP8) (X : Nat)
    (hmem : ∀ a, a < 4096 → s.m_memory a < 256) (hX : X < 16)
    (hI : s.m_I + X ≤ 4095) (hf : fetches s (0xF055 + X * 256)) :
    emulateCycle r s = some (updateTimers { s with
      m_opcode := 0xF055 + X * 256, m_pc := s.m_pc + 2,
      m_memory := fun a => if s.m_I ≤ a ∧ a < s.m_I + (X + 1) then s.m_V (a - s.m_I)
        else s.m_memory a,
      m_I := s.m_I + (X + 1) }) := by
  have hx : opX { s with m_opcode := 0xF055 + X * 256, m_pc := s.m_pc + 2 } = X :=
    opX_eq _ X (by simp; omega)
  have hsub : (0xF055 + X * 256) % 256 = 0x55 := by omega
  have hd := decode_F r { s with m_opcode := 0xF055 + X * 256, m_pc := s.m_pc + 2 }
    (by simp; omega)
  simp only [hsub] at hd
  have hw : (s.m_I + (X + 1)) % 65536 = s.m_I + (X + 1) := by omega
  have hl := storeLoop_eq (X + 1) 0 { s with m_opcode := 0xF055 + X * 256, m_pc := s.m_pc + 2 }
    (by omega) (by simp; omega)
  simp only [Nat.add_zero] at hl
  simp [op_LD_mem_Vx, hx, hl, hw] at hd
  exact emulateCycle_of_decode r s _ _ hmem hf hd

/-- One cycle on a fetched 0xFX65 whose block lies inside the memory. -/
theorem cycle_load (r : Nat) (s : CHIP8) (X : Nat)
    (hmem : ∀ a, a < 4096 → s.m_memory a < 256) (hX : X < 16)
    (hI : s.m_I + X ≤ 4095) (hf : fetches s (0xF065 + X * 256)) :
    emulateCycle r s = some (updateTimers { s with
      m_opcode := 0xF065 + X * 256, m_pc := s.m_pc + 2,
      m_V := fun j => if j < X + 1 then s.m_memory (s.m_I + j) else s.m_V j,
      m_I := s.m_I + (X + 1) }) := by
  have hx : opX { s with m_opcode := 0xF065 + X * 256, m_pc := s.m_pc + 2 } = X :=
    opX_eq _ X (by simp; omega)
  have hsub : (0xF065 + X * 256) % 256 = 0x65 := by omega
  have hd := decode_F r { s with m_opcode := 0xF065 + X * 256, m_pc := s.m_pc + 2 }
    (by simp; omega)
  simp only [hsub] at hd
  have hw : (s.m_I + (X + 1)) % 65536 = s.m_I + (X + 1) := by omega
  have hl := loadLoopV_eq (X + 1) 0 { s with m_opcode := 0xF065 + X * 256, m_pc := s.m_pc + 2 }
    (by omega) (by simp; omega)
  simp only [Nat.zero_add, Nat.zero_le, true_and] at hl
  simp [op_LD_Vx_mem, hx, hl, hw] at hd
  exact emulateCycle_of_decode r s _ _ hmem hf hd

/-! ## The timer step in closed form -/

theorem updateTimers_m_delay_timer (s : CHIP8) :
    (updateTimers s).m_delay_timer = s.m_delay_timer - 1 := by
  unfold updateTimers; dsimp only; split_ifs <;> simp_all

theorem updateTimers_m_sound_timer (s : CHIP8) :
    (updateTimers s).m_sound_timer = s.m_sound_timer - 1 := by
  unfold updateTimers; dsimp only; split_ifs <;> simp_all

theorem updateTimers_cout (s : CHIP8) :
    (updateTimers s).cout = s.cout ++ (if s.m_sound_timer = 1 then [Output.beep] else []) := by
  unfold updateTimers; dsimp only; split_ifs <;> simp_all

/-! ## Key scan with a pressed key, random, unknown opcodes, ROM loading -/

theorem keyLoop_pressed (n : Nat) : ∀ (i : Nat) (s : CHIP8) (k : Nat), i ≤ k → k < i + n →
    k < 16 → s.m_key k = true → (∀ j, i ≤ j → j < k → s.m_key j = false) →
    keyLoop n i s = some (true, { s with m_V := store s.m_V (opX s) k }) := by
  induction n with
  | zero => intro i s k h1 h2; omega
  | succ n ih =>
    intro i s k h1 h2 hk hp hmin
    have hi16 : i < 16 := by omega
    simp only [keyLoop, arrAt_lt _ hi16, Option.some_bind]
    by_cases hik : i = k
    · subst hik
      have hm : i % 256 = i := by omega
      simp [hp, arrSet_lt _ _ (opX_lt s), hm]
    · have hf : s.m_key i = false := hmin i (Nat.le_refl _) (by omega)
      simp only [hf]
      simpa using ih (i + 1) s k (by omega) (by omega) hk hp
        (fun j hj1 hj2 => hmin j (by omega) hj2)

theorem decode_C (r : Nat) (s : CHIP8) (h : s.m_opcode / 4096 % 16 = 12) :
    decodeOpcode r s = op_RND r s := by
  simp [decodeOpcode, land_F000, h]

theorem decode_unknown (r : Nat) (s : CHIP8) (hu : unknownOpcode s.m_opcode) :
    ∃ diag, decodeOpcode r s = some (true, { s with cout := s.cout ++ [diag] }) := by
  unfold unknownOpcode at hu
  rcases hu with ⟨hc, h1, h2⟩ | ⟨hc, hn⟩ | ⟨hc, hn⟩ | ⟨hc, h1, h2⟩ | ⟨hc, h⟩
  · have hc2 : s.m_opcode / 4096 % 16 = 0 := by omega
    exact ⟨Output.notImplemented, by simp [decodeOpcode, land_F000, hc2, h1, h2, op_0NNN]⟩
  · have hc2 : s.m_opcode / 4096 % 16 = 5 ∨ s.m_opcode / 4096 % 16 = 9 := by omega
    refine ⟨Output.notRecognized s.m_opcode, ?_⟩
    rcases hc2 with hc2 | hc2 <;>
      simp [decodeOpcode, land_F000, land_000F, hc2, hn, op_unknown]
  · have hc2 : s.m_opcode / 4096 % 16 = 8 := by omega
    refine ⟨Output.notRecognized s.m_opcode, ?_⟩
    rw [decode_8 r s hc2]
    repeat rw [if_neg (by omega)]
    rfl
  · have hc2 : s.m_opcode / 4096 % 16 = 14 := by omega
    exact ⟨Output.notRecognized s.m_opcode,
      by simp [decodeOpcode, land_F000, land_00FF, hc2, h1, h2, op_unknown]⟩
  · have hc2 : s.m_opcode / 4096 % 16 = 15 := by omega
    refine ⟨Output.notRecognized s.m_opcode, ?_⟩
    rw [decode_F r s hc2]
    repeat rw [if_neg (by omega)]
    rfl

theorem loadLoop_fault (bytes : List Nat) : ∀ (i : Nat) (mem : Nat → Nat),
    4096 ≤ i + bytes.length → loadLoop bytes i mem = none := by
  induction bytes with
  | nil => intro i mem h; simp [loadLoop, arrSet]; simpa using h
  | cons b rest ih =>
    intro i mem h
    simp only [loadLoop, arrSet]
    split_ifs with hi
    · simp only [Option.some_bind]
      exact ih (i + 1) _ (by simp at h; omega)
    · rfl

theorem loadLoop_ok (bytes : List Nat) : ∀ (i : Nat) (mem : Nat → Nat),
    i + bytes.length < 4096 →
    loadLoop bytes i mem = some (fun a =>
      if i ≤ a ∧ a < i + bytes.length then bytes.getD (a - i) 0 % 256
      else if a = i + bytes.length then 255 else mem a) := by
  induction bytes with
  | nil =>
    intro i mem h
    have hi : i < 4096 := by simpa using h
    simp only [loadLoop, arrSet_lt _ _ hi]
    congr 1
    funext a
    simp only [store, List.length_nil, Nat.add_zero]
    rw [if_neg (show ¬(i ≤ a ∧ a < i) by omega)]
  | cons b rest ih =>
    intro i mem h
    simp only [List.length_cons] at h
    have hi : i < 4096 := by omega
    simp only [loadLoop, arrSet_lt _ _ hi, Option.some_bind]
    rw [ih (i + 1) _ (by omega)]
    congr 1
    funext a
    simp only [store, List.length_cons]
    by_cases h1 : i + 1 ≤ a ∧ a < i + 1 + rest.length
    · rw [if_pos h1, if_pos (by omega)]
      have : a - i = (a - (i + 1)) + 1 := by omega
      rw [this, List.getD_cons_succ]
    · rw [if_neg h1]
      by_cases h2 : a = i + 1 + rest.length
      · rw [if_pos h2, if_neg (by omega), if_pos (by omega)]
      · rw [if_neg h2]
        by_cases h3 : a = i
        · rw [if_pos h3, if_pos (by omega)]
          have : a - i = 0 := by omega
          rw [this, List.getD_cons_zero]
        · rw [if_neg h3, if_neg (by omega), if_neg (by omega)]

/-! ## The draw loops -/

theorem colsHit_iff (pb base x n c : Nat) :
    colsHit pb base x n c = true ↔
      c < 2048 ∧ base + x ≤ c ∧ c < base + x + n ∧ pb &&& (0x80 >>> (c - base)) ≠ 0 := by
  simp [colsHit, and_assoc]

theorem colsHit_false (pb base x n c : Nat)
    (h : ¬ (c < 2048 ∧ base + x ≤ c ∧ c < base + x + n)) : colsHit pb base x n c = false := by
  rw [← Bool.not_eq_true, colsHit_iff]
  intro h2
  exact h ⟨h2.1, h2.2.1, h2.2.2.1⟩

/-- One pass of the inner loop on a set bit whose cell is on the buffer. -/
theorem drwCols_set (pb x0 y0 y n x : Nat) (s : CHIP8)
    (hlt : x0 + x + (y0 + y) * 64 < 2048) (hbit : pb &&& (0x80 >>> x) ≠ 0) :
    drwCols pb x0 y0 y (n + 1) x s = drwCols pb x0 y0 y n (x + 1) { s with
      m_V := if s.m_gfx (x0 + x + (y0 + y) * 64) = true then store s.m_V 0xF 1 else s.m_V,
      m_gfx := store s.m_gfx (x0 + x + (y0 + y) * 64) (!s.m_gfx (x0 + x + (y0 + y) * 64)) } := by
  have hoff : ¬ x0 + x + (y0 + y) * 64 ≥ 2048 := by omega
  simp only [drwCols, hoff, if_false, hbit, if_true, arrAt_lt _ hlt, arrSet_lt _ _ hlt,
    Option.some_bind]
  by_cases hl : s.m_gfx (x0 + x + (y0 + y) * 64) = true
  · simp [hl, arrSet]
    intro h; exact absurd h hbit
  · simp [hl]
    intro h; exact absurd h hbit

theorem drwCols_clear (pb x0 y0 y n x : Nat) (s : CHIP8)
    (hlt : x0 + x + (y0 + y) * 64 < 2048) (hbit : ¬ pb &&& (0x80 >>> x) ≠ 0) :
    drwCols pb x0 y0 y (n + 1) x s = drwCols pb x0 y0 y n (x + 1) s := by
  have hoff : ¬ x0 + x + (y0 + y) * 64 ≥ 2048 := by omega
  simp only [drwCols, hoff, if_false, hbit]

theorem drwCols_break (pb x0 y0 y n x : Nat) (s : CHIP8)
    (hoff : x0 + x + (y0 + y) * 64 ≥ 2048) :
    drwCols pb x0 y0 y (n + 1) x s = some s := by
  simp only [drwCols, hoff, if_true]

theorem drwCols_spec (pb x0 y0 y : Nat) (n : Nat) : ∀ (x : Nat) (s : CHIP8),
    ∃ s1, drwCols pb x0 y0 y n x s = some s1 ∧
      s1 = { s with m_gfx := s1.m_gfx, m_V := s1.m_V } ∧
      (∀ c, s1.m_gfx c =
        if colsHit pb (x0 + (y0 + y) * 64) x n c = true then !s.m_gfx c else s.m_gfx c) ∧
      (∀ i, i ≠ 15 → s1.m_V i = s.m_V i) ∧
      ((∃ c, colsHit pb (x0 + (y0 + y) * 64) x n c = true ∧ s.m_gfx c = true) →
        s1.m_V 15 = 1) ∧
      ((¬ ∃ c, colsHit pb (x0 + (y0 + y) * 64) x n c = true ∧ s.m_gfx c = true) →
        s1.m_V 15 = s.m_V 15) := by
  induction n with
  | zero =>
    intro x s
    have hnone : ∀ c, colsHit pb (x0 + (y0 + y) * 64) x 0 c = false :=
      fun c => colsHit_false _ _ _ _ _ (by omega)
    refine ⟨s, rfl, rfl, ?_, fun _ _ => rfl, ?_, fun _ => rfl⟩
    · intro c; simp [hnone c]
    · rintro ⟨c, hc, -⟩; simp [hnone c] at hc
  | succ n ih =>
    intro x s
    by_cases hoff : x0 + x + (y0 + y) * 64 ≥ 2048
    · have hnone : ∀ c, colsHit pb (x0 + (y0 + y) * 64) x (n + 1) c = false :=
        fun c => colsHit_false _ _ _ _ _ (by omega)
      refine ⟨s, drwCols_break _ _ _ _ _ _ _ hoff, rfl, ?_, fun _ _ => rfl, ?_, fun _ => rfl⟩
      · intro c; simp [hnone c]
      · rintro ⟨c, hc, -⟩; simp [hnone c] at hc
    · have hlt : x0 + x + (y0 + y) * 64 < 2048 := by omega
      -- cells other than the current one see the same columns before and after this pass
      have hrest : ∀ c, c ≠ x0 + x + (y0 + y) * 64 →
          colsHit pb (x0 + (y0 + y) * 64) (x + 1) n c
            = colsHit pb (x0 + (y0 + y) * 64) x (n + 1) c := by
        intro c hc
        rw [Bool.eq_iff_iff, colsHit_iff, colsHit_iff]
        constructor <;> rintro ⟨h1, h2, h3, h4⟩ <;> exact ⟨h1, by omega, by omega, h4⟩
      have hcur1 : colsHit pb (x0 + (y0 + y) * 64) (x + 1) n (x0 + x + (y0 + y) * 64) = false :=
        colsHit_false _ _ _ _ _ (by omega)
      have hsub : x0 + x + (y0 + y) * 64 - (x0 + (y0 + y) * 64) = x := by omega
      by_cases hbit : pb &&& (0x80 >>> x) ≠ 0
      · have hcur : colsHit pb (x0 + (y0 + y) * 64) x (n + 1) (x0 + x + (y0 + y) * 64) = true := by
          rw [colsHit_iff, hsub]; exact ⟨hlt, by omega, by omega, hbit⟩
        obtain ⟨s1, h1, hfr, hg, hv, hc1, hc0⟩ := ih (x + 1) { s with
          m_V := if s.m_gfx (x0 + x + (y0 + y) * 64) = true then store s.m_V 0xF 1 else s.m_V,
          m_gfx := store s.m_gfx (x0 + x + (y0 + y) * 64) (!s.m_gfx (x0 + x + (y0 + y) * 64)) }
        simp only at hg hv hc1 hc0
        refine ⟨s1, (drwCols_set _ _ _ _ _ _ _ hlt hbit).trans h1, hfr, ?_, ?_, ?_, ?_⟩
        · intro c
          rw [hg c]
          by_cases hcx : c = x0 + x + (y0 + y) * 64
          · subst hcx
            simp [hcur1, hcur, store]
          · simp [hrest c hcx, store, hcx]
        · intro i hi
          rw [hv i hi]
          by_cases hl : s.m_gfx (x0 + x + (y0 + y) * 64) = true
          · simp [hl, store, hi]
          · simp [hl]
        · rintro ⟨c, hc, hlit⟩
          by_cases hcx : c = x0 + x + (y0 + y) * 64
          · subst hcx
            by_cases hex : ∃ c, colsHit pb (x0 + (y0 + y) * 64) (x + 1) n c = true ∧
                store s.m_gfx (x0 + x + (y0 + y) * 64) (!s.m_gfx (x0 + x + (y0 + y) * 64)) c = true
            · exact hc1 hex
            · rw [hc0 hex]; simp [hlit, store]
          · exact hc1 ⟨c, by rw [hrest c hcx]; exact hc, by simp [store, hcx, hlit]⟩
        · intro hno
          have hl : ¬ s.m_gfx (x0 + x + (y0 + y) * 64) = true := fun h => hno ⟨_, hcur, h⟩
          have hex : ¬ ∃ c, colsHit pb (x0 + (y0 + y) * 64) (x + 1) n c = true ∧
              store s.m_gfx (x0 + x + (y0 + y) * 64) (!s.m_gfx (x0 + x + (y0 + y) * 64)) c = true := by
            rintro ⟨c, hc, hlit⟩
            have hcx : c ≠ x0 + x + (y0 + y) * 64 := by
              intro h; rw [h, hcur1] at hc; exact Bool.noConfusion hc
            exact hno ⟨c, by rw [← hrest c hcx]; exact hc, by simpa [store, hcx] using hlit⟩
          rw [hc0 hex]; simp [hl]
      · have hcur : colsHit pb (x0 + (y0 + y) * 64) x (n + 1) (x0 + x + (y0 + y) * 64) = false := by
          rw [← Bool.not_eq_true, colsHit_iff, hsub]
          exact fun h => hbit h.2.2.2
        have hall : ∀ c, colsHit pb (x0 + (y0 + y) * 64) (x + 1) n c
            = colsHit pb (x0 + (y0 + y) * 64) x (n + 1) c := by
          intro c
          by_cases hcx : c = x0 + x + (y0 + y) * 64
          · rw [hcx, hcur1, hcur]
          · exact hrest c hcx
        obtain ⟨s1, h1, hfr, hg, hv, hc1, hc0⟩ := ih (x + 1) s
        refine ⟨s1, (drwCols_clear _ _ _ _ _ _ _ hlt hbit).trans h1, hfr, ?_, hv, ?_, ?_⟩
        · intro c; rw [hg c, hall c]
        · rintro ⟨c, hc, hlit⟩; exact hc1 ⟨c, by rw [hall c]; exact hc, hlit⟩
        · intro hno; exact hc0 (fun ⟨c, hc, hlit⟩ => hno ⟨c, by rw [← hall c]; exact hc, hlit⟩)

theorem rowsHit_iff (mem : Nat → Nat) (index x0 y0 : Nat) (n : Nat) : ∀ (y c : Nat),
    rowsHit mem index x0 y0 n y c = true ↔
      ∃ r, y ≤ r ∧ r < y + n ∧ colsHit (mem (index + r)) (x0 + (y0 + r) * 64) 0 8 c = true := by
  induction n with
  | zero => intro y c; simp [rowsHit]; intro r h1 h2; omega
  | succ n ih =>
    intro y c
    simp only [rowsHit, Bool.or_eq_true, ih]
    constructor
    · rintro (h | ⟨r, h1, h2, h3⟩)
      · exact ⟨y, Nat.le_refl _, by omega, h⟩
      · exact ⟨r, by omega, by omega, h3⟩
    · rintro ⟨r, h1, h2, h3⟩
      by_cases hr : r = y
      · left; rw [← hr]; exact h3
      · right; exact ⟨r, by omega, by omega, h3⟩

theorem rowsHit_ge (mem : Nat → Nat) (index x0 y0 n y c : Nat)
    (h : rowsHit mem index x0 y0 n y c = true) : x0 + (y0 + y) * 64 ≤ c := by
  obtain ⟨r, h1, _, h3⟩ := (rowsHit_iff mem index x0 y0 n y c).1 h
  have := ((colsHit_iff _ _ _ _ _).1 h3).2.1
  have : (y0 + y) * 64 ≤ (y0 + r) * 64 := Nat.mul_le_mul_right 64 (by omega)
  omega

theorem drwRows_spec (x0 y0 : Nat) (n : Nat) : ∀ (y : Nat) (s : CHIP8),
    (∀ r, y ≤ r → r < y + n → s.m_I + r < 4096) →
    ∃ s1, drwRows x0 y0 n y s = some s1 ∧
      s1 = { s with m_gfx := s1.m_gfx, m_V := s1.m_V } ∧
      (∀ c, s1.m_gfx c =
        if rowsHit s.m_memory s.m_I x0 y0 n y c = true then !s.m_gfx c else s.m_gfx c) ∧
      (∀ i, i ≠ 15 → s1.m_V i = s.m_V i) ∧
      ((∃ c, rowsHit s.m_memory s.m_I x0 y0 n y c = true ∧ s.m_gfx c = true) →
        s1.m_V 15 = 1) ∧
      ((¬ ∃ c, rowsHit s.m_memory s.m_I x0 y0 n y c = true ∧ s.m_gfx c = true) →
        s1.m_V 15 = s.m_V 15) := by
  induction n with
  | zero =>
    intro y s _
    refine ⟨s, rfl, rfl, ?_, fun _ _ => rfl, ?_, fun _ => rfl⟩
    · intro c; simp [rowsHit]
    · rintro ⟨c, hc, -⟩; simp [rowsHit] at hc
  | succ n ih =>
    intro y s hmem
    have hy : s.m_I + y < 4096 := hmem y (Nat.le_refl _) (by omega)
    obtain ⟨sa, ha, hfa, hga, hva, hca1, hca0⟩ :=
      drwCols_spec (s.m_memory (s.m_I + y)) x0 y0 y 8 0 s
    have hI : sa.m_I = s.m_I := by rw [hfa]
    have hM : sa.m_memory = s.m_memory := by rw [hfa]
    obtain ⟨s1, h1, hf1, hg1, hv1, hc1, hc0⟩ := ih (y + 1) sa
      (by intro r h1 h2; rw [hI]; exact hmem r (by omega) (by omega))
    rw [hI, hM] at hg1 hc1 hc0
    -- a cell of row y is not a cell of a later row
    have hdisj : ∀ c, colsHit (s.m_memory (s.m_I + y)) (x0 + (y0 + y) * 64) 0 8 c = true →
        rowsHit s.m_memory s.m_I x0 y0 n (y + 1) c = false := by
      intro c hc
      rw [← Bool.not_eq_true]
      intro hr
      have h1 := rowsHit_ge _ _ _ _ _ _ _ hr
      have h2 := ((colsHit_iff _ _ _ _ _).1 hc).2.2.1
      omega
    have hsame : ∀ c, rowsHit s.m_memory s.m_I x0 y0 n (y + 1) c = true →
        sa.m_gfx c = s.m_gfx c := by
      intro c hr
      rw [hga c]
      by_cases hc : colsHit (s.m_memory (s.m_I + y)) (x0 + (y0 + y) * 64) 0 8 c = true
      · rw [hdisj c hc] at hr; exact Bool.noConfusion hr
      · simp [hc]
    refine ⟨s1, ?_, ?_, ?_, ?_, ?_, ?_⟩
    · simp only [drwRows, arrAt_lt _ hy, Option.some_bind, ha]
      exact h1
    · rw [hf1, hfa]
    · intro c
      rw [hg1 c, hga c]
      by_cases hc : colsHit (s.m_memory (s.m_I + y)) (x0 + (y0 + y) * 64) 0 8 c = true
      · simp [rowsHit, hc, hdisj c hc]
      · simp [rowsHit, hc]
    · intro i hi; rw [hv1 i hi, hva i hi]
    · rintro ⟨c, hc, hlit⟩
      simp only [rowsHit, Bool.or_eq_true] at hc
      by_cases hex : ∃ c, rowsHit s.m_memory s.m_I x0 y0 n (y + 1) c = true ∧ sa.m_gfx c = true
      · exact hc1 hex
      · rw [hc0 hex]
        rcases hc with hc | hc
        · exact hca1 ⟨c, hc, hlit⟩
        · exact absurd ⟨c, hc, by rw [hsame c hc]; exact hlit⟩ hex
    · intro hno
      have hex : ¬ ∃ c, rowsHit s.m_memory s.m_I x0 y0 n (y + 1) c = true ∧ sa.m_gfx c = true := by
        rintro ⟨c, hc, hlit⟩
        exact hno ⟨c, by simp [rowsHit, hc], by rw [← hsame c hc]; exact hlit⟩
      have hexa : ¬ ∃ c, colsHit (s.m_memory (s.m_I + y)) (x0 + (y0 + y) * 64) 0 8 c = true ∧
          s.m_gfx c = true := by
        rintro ⟨c, hc, hlit⟩
        exact hno ⟨c, by simp [rowsHit, hc], hlit⟩
      rw [hc0 hex, hca0 hexa]

theorem decode_D (r : Nat) (s : CHIP8) (h : s.m_opcode / 4096 % 16 = 13) :
    decodeOpcode r s = op_DRW s := by
  simp [decodeOpcode, land_F000, h]

/-- A set sprite bit with its cell on the buffer is a hit, and conversely. -/
theorem rowsHit_iff_bit (mem : Nat → Nat) (index x0 y0 N c : Nat) :
    rowsHit mem index x0 y0 N 0 c = true ↔
      ∃ row col, row < N ∧ col < 8 ∧ mem (index + row) &&& (0x80 >>> col) ≠ 0 ∧
        c = x0 + col + (y0 + row) * 64 ∧ c < 2048 := by
  rw [rowsHit_iff]
  constructor
  · rintro ⟨row, _, h2, h3⟩
    obtain ⟨h4, h5, h6, h7⟩ := (colsHit_iff _ _ _ _ _).1 h3
    exact ⟨row, c - (x0 + (y0 + row) * 64), by omega, by omega, h7, by omega, h4⟩
  · rintro ⟨row, col, h1, h2, h3, h4, h5⟩
    refine ⟨row, Nat.zero_le _, by omega, (colsHit_iff _ _ _ _ _).2 ⟨h5, by omega, by omega, ?_⟩⟩
    have : c - (x0 + (y0 + row) * 64) = col := by omega
    rw [this]; exact h3

/-- One cycle on a fetched 0xDXYN whose sprite rows lie inside the memory. -/
theorem cycle_DRW (r : Nat) (s : CHIP8) (X Y N : Nat)
    (hmem : ∀ a, a < 4096 → s.m_memory a < 256) (hX : X < 16) (hY : Y < 16) (hN : N < 16)
    (hrows : ∀ y, y < N → s.m_I + y < 4096)
    (hf : fetches s (0xD000 + X * 256 + Y * 16 + N)) :
    ∃ s1, emulateCycle r s = some s1 ∧
      s1.m_memory = s.m_memory ∧ s1.m_I = s.m_I ∧ s1.m_pc = s.m_pc + 2 ∧
      (∀ c, s1.m_gfx c =
        if rowsHit s.m_memory s.m_I (s.m_V X % 64) (s.m_V Y % 32) N 0 c = true
        then !s.m_gfx c else s.m_gfx c) ∧
      (∀ i, i ≠ 15 → s1.m_V i = s.m_V i) ∧
      ((∃ c, rowsHit s.m_memory s.m_I (s.m_V X % 64) (s.m_V Y % 32) N 0 c = true ∧
          s.m_gfx c = true) → s1.m_V 15 = 1) ∧
      ((¬ ∃ c, rowsHit s.m_memory s.m_I (s.m_V X % 64) (s.m_V Y % 32) N 0 c = true ∧
          s.m_gfx c = true) → s1.m_V 15 = 0) := by
  have hx : opX { s with m_opcode := 0xD000 + X * 256 + Y * 16 + N, m_pc := s.m_pc + 2 } = X :=
    opX_eq _ X (by simp; omega)
  have hy : opY { s with m_opcode := 0xD000 + X * 256 + Y * 16 + N, m_pc := s.m_pc + 2 } = Y :=
    opY_eq _ Y (by simp; omega)
  have hn : (0xD000 + X * 256 + Y * 16 + N) % 16 = N := by omega
  have hd := decode_D r { s with m_opcode := 0xD000 + X * 256 + Y * 16 + N, m_pc := s.m_pc + 2 }
    (by simp; omega)
  obtain ⟨sd, h1, hfr, hg, hv, hc1, hc0⟩ := drwRows_spec (s.m_V X % 64) (s.m_V Y % 32) N 0
    { s with m_opcode := 0xD000 + X * 256 + Y * 16 + N, m_pc := s.m_pc + 2,
             m_V := store s.m_V 0xF 0 }
    (fun y _ h => hrows y (by omega))
  simp only at hg hv hc1 hc0
  simp [op_DRW, hx, hy, arrAt, arrSet, hX, hY, land_000F, hn, h1] at hd
  refine ⟨_, emulateCycle_of_decode r s _ _ hmem hf hd, ?_, ?_, ?_, ?_, ?_, ?_, ?_⟩
  · simp; rw [hfr]
  · simp; rw [hfr]
  · simp; rw [hfr]
  · intro c; simpa using hg c
  · intro i hi; simpa [store, hi] using hv i hi
  · intro h; simpa using hc1 h
  · intro h; simpa [store] using hc0 h

/-! ## What every instruction leaves alone, and what it keeps in range -/

theorem drwCols_some (pb x0 y0 y n x : Nat) (s d : CHIP8)
    (h : drwCols pb x0 y0 y n x s = some d) :
    d = { s with m_gfx := d.m_gfx, m_V := d.m_V } ∧ (∀ i, i ≠ 15 → d.m_V i = s.m_V i) ∧
      (d.m_V 15 = s.m_V 15 ∨ d.m_V 15 = 1) := by
  obtain ⟨s1, h1, hfr, -, hv, hc1, hc0⟩ := drwCols_spec pb x0 y0 y n x s
  rw [h] at h1
  obtain rfl := Option.some.inj h1
  refine ⟨hfr, hv, ?_⟩
  by_cases hex : ∃ c, colsHit pb (x0 + (y0 + y) * 64) x n c = true ∧ s.m_gfx c = true
  · exact Or.inr (hc1 hex)
  · exact Or.inl (hc0 hex)

theorem drwRows_some (x0 y0 : Nat) (n : Nat) : ∀ (y : Nat) (s d : CHIP8),
    drwRows x0 y0 n y s = some d →
    d = { s with m_gfx := d.m_gfx, m_V := d.m_V } ∧ (∀ i, i ≠ 15 → d.m_V i = s.m_V i) ∧
      (d.m_V 15 = s.m_V 15 ∨ d.m_V 15 = 1) := by
  induction n with
  | zero =>
    intro y s d h
    simp only [drwRows, Option.some.injEq] at h
    subst h
    exact ⟨rfl, fun _ _ => rfl, Or.inl rfl⟩
  | succ n ih =>
    intro y s d h
    simp only [drwRows, arrAt] at h
    split_ifs at h with hy
    · simp only [Option.some_bind] at h
      obtain ⟨sa, ha, hb⟩ := Option.bind_eq_some.1 h
      obtain ⟨hfa, hva, hca⟩ := drwCols_some _ _ _ _ _ _ _ _ ha
      obtain ⟨hfb, hvb, hcb⟩ := ih (y + 1) sa d hb
      refine ⟨by rw [hfb, hfa], fun i hi => by rw [hvb i hi, hva i hi], ?_⟩
      rcases hcb with hcb | hcb
      · rcases hca with hca | hca
        · exact Or.inl (by rw [hcb, hca])
        · exact Or.inr (by rw [hcb, hca])
      · exact Or.inr hcb
    · simp at h

theorem keyLoop_some (n : Nat) : ∀ (i : Nat) (s d : CHIP8) (b : Bool),
    keyLoop n i s = some (b, d) →
    (b = false ∧ d = s) ∨ (b = true ∧ ∃ k, k < 16 ∧ d = { s with m_V := store s.m_V (opX s) k }) := by
  induction n with
  | zero =>
    intro i s d b h
    simp only [keyLoop, Option.some.injEq, Prod.mk.injEq] at h
    exact Or.inl ⟨h.1.symm, h.2.symm⟩
  | succ n ih =>
    intro i s d b h
    simp only [keyLoop, arrAt] at h
    split_ifs at h with hi
    · simp only [Option.some_bind] at h
      split_ifs at h with hk
      · simp only [arrSet_lt _ _ (opX_lt s), Option.some_bind, Option.some.injEq,
          Prod.mk.injEq] at h
        have hm : i % 256 = i := by omega
        rw [hm] at h
        exact Or.inr ⟨h.1.symm, i, hi, h.2.symm⟩
      · exact ih (i + 1) s d b h
    · simp at h

theorem storeLoop_some (n : Nat) : ∀ (i : Nat) (s d : CHIP8),
    storeLoop n i s = some d →
    d = { s with m_memory := d.m_memory } ∧
      (∀ a, a < s.m_I → d.m_memory a = s.m_memory a) ∧
      ((∀ j, j < 16 → s.m_V j < 256) → (∀ a, a < 4096 → s.m_memory a < 256) →
        ∀ a, a < 4096 → d.m_memory a < 256) := by
  induction n with
  | zero =>
    intro i s d h
    simp only [storeLoop, Option.some.injEq] at h
    subst h
    exact ⟨rfl, fun _ _ => rfl, fun _ hm => hm⟩
  | succ n ih =>
    intro i s d h
    simp only [storeLoop, arrAt, arrSet] at h
    split_ifs at h with hi ha
    · simp only [Option.some_bind] at h
      obtain ⟨hf, hlow, hwf⟩ := ih (i + 1) _ d h
      simp only at hf hlow hwf
      refine ⟨hf, ?_, ?_⟩
      · intro a hlt
        rw [hlow a hlt]
        simp only [store]
        rw [if_neg (by omega)]
      · intro hV hM
        refine hwf hV ?_
        intro a ha4
        simp only [store]
        split_ifs
        · exact hV i hi
        · exact hM a ha4
    all_goals simp at h

theorem loadLoopV_some (n : Nat) : ∀ (i : Nat) (s d : CHIP8),
    loadLoopV n i s = some d →
    d = { s with m_V := d.m_V } ∧
      ((∀ j, j < 16 → s.m_V j < 256) → (∀ a, a < 4096 → s.m_memory a < 256) →
        ∀ j, j < 16 → d.m_V j < 256) := by
  induction n with
  | zero =>
    intro i s d h
    simp only [loadLoopV, Option.some.injEq] at h
    subst h
    exact ⟨rfl, fun hV _ => hV⟩
  | succ n ih =>
    intro i s d h
    simp only [loadLoopV, arrAt, arrSet] at h
    split_ifs at h with ha hi
    · simp only [Option.some_bind] at h
      obtain ⟨hf, hwf⟩ := ih (i + 1) _ d h
      simp only at hf hwf
      refine ⟨hf, ?_⟩
      intro hV hM
      refine hwf ?_ hM
      intro j hj
      simp only [store]
      split_ifs
      · exact hM _ ha
      · exact hV j hj
    all_goals simp at h

/-- The dispatch of `decodeOpcode` with the masks read as quotients and remainders. -/
theorem decodeOpcode_eq (r : Nat) (s : CHIP8) :
    decodeOpcode r s =
      if s.m_opcode / 4096 % 16 = 0 then
        (if s.m_opcode = 0x00E0 then op_CLS s
         else if s.m_opcode = 0x00EE then op_RET s else op_0NNN s)
      else if s.m_opcode / 4096 % 16 = 1 then op_JP s
      else if s.m_opcode / 4096 % 16 = 2 then op_CALL s
      else if s.m_opcode / 4096 % 16 = 3 then op_SE_byte s
      else if s.m_opcode / 4096 % 16 = 4 then op_SNE_byte s
      else if s.m_opcode / 4096 % 16 = 5 then
        (if s.m_opcode % 16 = 0 then op_SE_reg s else op_unknown s)
      else if s.m_opcode / 4096 % 16 = 6 then op_LD_byte s
      else if s.m_opcode / 4096 % 16 = 7 then op_ADD_byte s
      else if s.m_opcode / 4096 % 16 = 8 then
        (if s.m_opcode % 16 = 0 then op_LD_reg s
         else if s.m_opcode % 16 = 1 then op_OR s
         else if s.m_opcode % 16 = 2 then op_AND s
         else if s.m_opcode % 16 = 3 then op_XOR s
         else if s.m_opcode % 16 = 4 then op_ADD_reg s
         else if s.m_opcode % 16 = 5 then op_SUB s
         else if s.m_opcode % 16 = 6 then op_SHR s
         else if s.m_opcode % 16 = 7 then op_SUBN s
         else if s.m_opcode % 16 = 14 then op_SHL s
         else op_unknown s)
      else if s.m_opcode / 4096 % 16 = 9 then
        (if s.m_opcode % 16 = 0 then op_SNE_reg s else op_unknown s)
      else if s.m_opcode / 4096 % 16 = 10 then op_LD_I s
      else if s.m_opcode / 4096 % 16 = 11 then op_JP_V0 s
      else if s.m_opcode / 4096 % 16 = 12 then op_RND r s
      else if s.m_opcode / 4096 % 16 = 13 then op_DRW s
      else if s.m_opcode / 4096 % 16 = 14 then
        (if s.m_opcode % 256 = 0x9E then op_SKP s
         else if s.m_opcode % 256 = 0xA1 then op_SKNP s else op_unknown s)
      else
        (if s.m_opcode % 256 = 0x07 then op_LD_Vx_DT s
         else if s.m_opcode % 256 = 0x0A then op_LD_Vx_K s
         else if s.m_opcode % 256 = 0x15 then op_LD_DT_Vx s
         else if s.m_opcode % 256 = 0x18 then op_LD_ST_Vx s
         else if s.m_opcode % 256 = 0x1E then op_ADD_I s
         else if s.m_opcode % 256 = 0x29 then op_LD_F s
         else if s.m_opcode % 256 = 0x33 then op_LD_B s
         else if s.m_opcode % 256 = 0x55 then op_LD_mem_Vx s
         else if s.m_opcode % 256 = 0x65 then op_LD_Vx_mem s
         else op_unknown s) := by
  have hc : s.m_opcode / 4096 % 16 = 0 ∨ s.m_opcode / 4096 % 16 = 1 ∨
      s.m_opcode / 4096 % 16 = 2 ∨ s.m_opcode / 4096 % 16 = 3 ∨ s.m_opcode / 4096 % 16 = 4 ∨
      s.m_opcode / 4096 % 16 = 5 ∨ s.m_opcode / 4096 % 16 = 6 ∨ s.m_opcode / 4096 % 16 = 7 ∨
      s.m_opcode / 4096 % 16 = 8 ∨ s.m_opcode / 4096 % 16 = 9 ∨ s.m_opcode / 4096 % 16 = 10 ∨
      s.m_opcode / 4096 % 16 = 11 ∨ s.m_opcode / 4096 % 16 = 12 ∨
      s.m_opcode / 4096 % 16 = 13 ∨ s.m_opcode / 4096 % 16 = 14 ∨
      s.m_opcode / 4096 % 16 = 15 := by omega
  rcases hc with h | h | h | h | h | h | h | h | h | h | h | h | h | h | h | h <;>
    simp [decodeOpcode, land_F000, land_000F, land_00FF, h]

theorem category_cases (op : Nat) :
    op / 4096 % 16 = 0 ∨ op / 4096 % 16 = 1 ∨ op / 4096 % 16 = 2 ∨ op / 4096 % 16 = 3 ∨
    op / 4096 % 16 = 4 ∨ op / 4096 % 16 = 5 ∨ op / 4096 % 16 = 6 ∨ op / 4096 % 16 = 7 ∨
    op / 4096 % 16 = 8 ∨ op / 4096 % 16 = 9 ∨ op / 4096 % 16 = 10 ∨ op / 4096 % 16 = 11 ∨
    op / 4096 % 16 = 12 ∨ op / 4096 % 16 = 13 ∨ op / 4096 % 16 = 14 ∨ op / 4096 % 16 = 15 := by
  omega

set_option maxHeartbeats 4000000 in
/-- What one decoded instruction leaves alone: the delay timer unless the opcode is
0xFX15, the sound timer unless it is 0xFX18, the output apart from appended diagnostics
(never a beep), the memory below `m_I`, and the whole memory unless the opcode is 0xFX33
or 0xFX55. -/
theorem decode_frame (r : Nat) (s d : CHIP8) (b : Bool) (h : decodeOpcode r s = some (b, d)) :
    (d.m_delay_timer = s.m_delay_timer ∨
      (s.m_opcode / 4096 % 16 = 15 ∧ s.m_opcode % 256 = 0x15)) ∧
    (d.m_sound_timer = s.m_sound_timer ∨
      (s.m_opcode / 4096 % 16 = 15 ∧ s.m_opcode % 256 = 0x18)) ∧
    (∃ l, d.cout = s.cout ++ l ∧ Output.beep ∉ l) ∧
    (∀ a, a < s.m_I → d.m_memory a = s.m_memory a) ∧
    (d.m_memory = s.m_memory ∨
      (s.m_opcode / 4096 % 16 = 15 ∧ (s.m_opcode % 256 = 0x33 ∨ s.m_opcode % 256 = 0x55))) := by
  rw [decodeOpcode_eq] at h
  rcases category_cases s.m_opcode with
    hc | hc | hc | hc | hc | hc | hc | hc | hc | hc | hc | hc | hc | hc | hc | hc <;>
  simp only [hc, if_true, if_false, OfNat.ofNat_ne_zero, Nat.reduceEqDiff, Nat.succ_ne_zero,
    Nat.zero_ne_one] at h <;>
  (try split_ifs at h)
  all_goals first
    | (simp only [op_CLS, op_RET, op_JP, op_CALL, op_SE_byte, op_SNE_byte,
        op_SE_reg, op_SNE_reg, op_LD_byte, op_ADD_byte, op_LD_reg, op_OR, op_AND, op_XOR,
        op_ADD_reg, op_SUB, op_SHR, op_SUBN, op_SHL, op_LD_I, op_JP_V0, op_RND, op_SKP, op_SKNP,
        op_LD_Vx_DT, op_ADD_I, op_LD_F, skip, arrAt, arrSet] at h
       (try split_ifs at h) <;> (try simp at h) <;> (try split_ifs at h) <;>
       (try simp at h) <;> obtain ⟨-, rfl⟩ := h <;>
       refine ⟨Or.inl ?_, Or.inl ?_, ⟨[], ?_, by simp⟩, fun a _ => ?_, Or.inl ?_⟩ <;>
       (try split_ifs) <;> simp)
    | (simp only [op_0NNN, op_unknown, Option.some.injEq, Prod.mk.injEq] at h
       obtain ⟨-, rfl⟩ := h
       exact ⟨Or.inl rfl, Or.inl rfl, ⟨_, rfl, by simp⟩, fun _ _ => rfl, Or.inl rfl⟩)
    | skip
  · -- DRW
    simp only [op_DRW, arrAt_lt _ (opX_lt s), arrAt_lt _ (opY_lt s),
      arrSet_lt _ _ (by decide : 0xF < 16), Option.some_bind] at h
    obtain ⟨s1, h1, h2⟩ := Option.bind_eq_some.1 h
    simp only [Option.some.injEq, Prod.mk.injEq] at h2
    obtain ⟨-, rfl⟩ := h2
    obtain ⟨hfr, -, -⟩ := drwRows_some _ _ _ _ _ _ h1
    refine ⟨Or.inl ?_, Or.inl ?_, ⟨[], ?_, by simp⟩, fun a _ => ?_, Or.inl ?_⟩ <;>
      (rw [hfr] <;> simp)
  · -- LD Vx, K
    obtain ⟨⟨b1, d1⟩, h1, h2⟩ := Option.bind_eq_some.1 h
    rcases keyLoop_some _ _ _ _ _ h1 with ⟨rfl, rfl⟩ | ⟨rfl, k, -, rfl⟩ <;>
      simp at h2 <;> obtain ⟨-, rfl⟩ := h2 <;>
      exact ⟨Or.inl rfl, Or.inl rfl, ⟨[], by simp, by simp⟩, fun _ _ => rfl, Or.inl rfl⟩
  · -- LD DT, Vx
    simp only [op_LD_DT_Vx, arrAt_lt _ (opX_lt s), Option.some_bind, Option.some.injEq,
      Prod.mk.injEq] at h
    obtain ⟨-, rfl⟩ := h
    exact ⟨Or.inr ⟨hc, by assumption⟩, Or.inl rfl, ⟨[], by simp, by simp⟩, fun _ _ => rfl,
      Or.inl rfl⟩
  · -- LD ST, Vx
    simp only [op_LD_ST_Vx, arrAt_lt _ (opX_lt s), Option.some_bind, Option.some.injEq,
      Prod.mk.injEq] at h
    obtain ⟨-, rfl⟩ := h
    exact ⟨Or.inl rfl, Or.inr ⟨hc, by assumption⟩, ⟨[], by simp, by simp⟩, fun _ _ => rfl,
      Or.inl rfl⟩
  · -- LD B, Vx
    simp only [op_LD_B, arrAt_lt _ (opX_lt s), Option.some_bind, arrSet] at h
    split_ifs at h <;> simp at h
    obtain ⟨-, rfl⟩ := h
    refine ⟨Or.inl rfl, Or.inl rfl, ⟨[], by simp, by simp⟩, fun a ha => ?_,
      Or.inr ⟨hc, Or.inl (by assumption)⟩⟩
    simp only [store]
    rw [if_neg (by omega), if_neg (by omega), if_neg (by omega)]
  · -- LD [I], Vx
    obtain ⟨s1, h1, h2⟩ := Option.bind_eq_some.1 h
    simp only [Option.some.injEq, Prod.mk.injEq] at h2
    obtain ⟨-, rfl⟩ := h2
    obtain ⟨hfr, hlow, -⟩ := storeLoop_some _ _ _ _ h1
    refine ⟨Or.inl ?_, Or.inl ?_, ⟨[], ?_, by simp⟩, fun a ha => hlow a ha,
      Or.inr ⟨hc, Or.inr (by assumption)⟩⟩ <;> (rw [hfr] <;> simp)
  · -- LD Vx, [I]
    obtain ⟨s1, h1, h2⟩ := Option.bind_eq_some.1 h
    simp only [Option.some.injEq, Prod.mk.injEq] at h2
    obtain ⟨-, rfl⟩ := h2
    obtain ⟨hfr, -⟩ := loadLoopV_some _ _ _ _ h1
    refine ⟨Or.inl ?_, Or.inl ?_, ⟨[], ?_, by simp⟩, fun a _ => ?_, Or.inl ?_⟩ <;>
      (rw [hfr] <;> simp)

set_option maxHeartbeats 4000000 in
/-- One decoded instruction keeps the values inside their types, keeps a bound `B` of
at least 4096 on the stack entries, and leaves the program counter at 4350 or less or
at a stack entry, when it starts with the program counter just advanced by the fetch
(between 2 and 4096). -/
theorem decode_WF (r : Nat) (s d : CHIP8) (b : Bool) (B : Nat) (hwf : WF s)
    (hpc2 : 2 ≤ s.m_pc) (hpc : s.m_pc ≤ 4096) (hB : 4096 ≤ B)
    (hst : ∀ i, i < 16 → s.m_stack i ≤ B)
    (h : decodeOpcode r s = some (b, d)) :
    WF d ∧ (d.m_pc ≤ 4350 ∨ d.m_pc ≤ B) ∧ (∀ i, i < 16 → d.m_stack i ≤ B) := by
  have hvx := hwf.V_lt _ (opX_lt s)
  have hvy := hwf.V_lt _ (opY_lt s)
  have hv0 := hwf.V_lt 0 (by decide)
  have hop := hwf.opcode_lt
  have hI := hwf.I_lt
  have hsp := hwf.sp_lt
  have hdl := hwf.delay_lt
  have hsd := hwf.sound_lt
  have hfff := land_0FFF s.m_opcode
  rw [decodeOpcode_eq] at h
  rcases category_cases s.m_opcode with
    hc | hc | hc | hc | hc | hc | hc | hc | hc | hc | hc | hc | hc | hc | hc | hc <;>
  simp only [hc, if_true, if_false, OfNat.ofNat_ne_zero, Nat.reduceEqDiff, Nat.succ_ne_zero,
    Nat.zero_ne_one] at h <;>
  (try split_ifs at h)
  all_goals first
    | (simp only [op_CLS, op_RET, op_0NNN, op_unknown, op_JP, op_CALL, op_SE_byte, op_SNE_byte,
        op_SE_reg, op_SNE_reg, op_LD_byte, op_ADD_byte, op_LD_reg, op_OR, op_AND, op_XOR,
        op_ADD_reg, op_SUB, op_SHR, op_SUBN, op_SHL, op_LD_I, op_JP_V0, op_RND, op_SKP, op_SKNP,
        op_LD_Vx_DT, op_ADD_I, op_LD_F, op_LD_DT_Vx, op_LD_ST_Vx, op_LD_B,
        skip, arrAt, arrSet] at h
       (try split_ifs at h) <;> (try simp at h) <;> (try split_ifs at h) <;>
       (try simp at h) <;> obtain ⟨-, rfl⟩ := h <;>
       refine ⟨⟨?_, ?_, ?_, ?_, ?_, ?_, ?_, ?_, ?_⟩, ?_, ?_⟩ <;>
       (try split_ifs) <;> (try simp only [store]) <;>
       first
        | assumption
        | exact hwf.memory_lt
        | exact hwf.V_lt
        | exact hwf.stack_lt
        | omega
        | (intro i hi; split_ifs <;>
            first
            | omega
            | exact hwf.V_lt i hi
            | exact hwf.memory_lt i hi
            | exact hwf.stack_lt i hi
            | exact hst i hi))
    | skip
  · -- RET
    simp only [op_RET, arrAt] at h
    split_ifs at h with hsp16
    · simp only [Option.some_bind, Option.some.injEq, Prod.mk.injEq] at h
      obtain ⟨-, rfl⟩ := h
      exact ⟨⟨hop, hwf.memory_lt, hwf.V_lt, hI, hwf.stack_lt _ hsp16, hdl, hsd, hwf.stack_lt,
        Nat.mod_lt _ (by decide)⟩, Or.inr (hst _ hsp16), hst⟩
    · simp at h
  · -- DRW
    simp only [op_DRW, arrAt_lt _ (opX_lt s), arrAt_lt _ (opY_lt s),
      arrSet_lt _ _ (by decide : 0xF < 16), Option.some_bind] at h
    obtain ⟨s1, h1, h2⟩ := Option.bind_eq_some.1 h
    simp only [Option.some.injEq, Prod.mk.injEq] at h2
    obtain ⟨-, rfl⟩ := h2
    obtain ⟨hfr, hv, hcl⟩ := drwRows_some _ _ _ _ _ _ h1
    simp only [store] at hv hcl
    have e1 : s1.m_opcode = s.m_opcode := by rw [hfr]
    have e2 : s1.m_memory = s.m_memory := by rw [hfr]
    have e3 : s1.m_I = s.m_I := by rw [hfr]
    have e4 : s1.m_pc = s.m_pc := by rw [hfr]
    have e5 : s1.m_delay_timer = s.m_delay_timer := by rw [hfr]
    have e6 : s1.m_sound_timer = s.m_sound_timer := by rw [hfr]
    have e7 : s1.m_stack = s.m_stack := by rw [hfr]
    have e8 : s1.m_sp = s.m_sp := by rw [hfr]
    refine ⟨⟨by simpa [e1] using hop, by simpa [e2] using hwf.memory_lt, ?_, by simpa [e3] using hI,
      by simp only [e4]; omega, by simpa [e5] using hdl, by simpa [e6] using hsd,
      by simpa [e7] using hwf.stack_lt, by simpa [e8] using hsp⟩,
      Or.inl (by simp only [e4]; omega), by simpa [e7] using hst⟩
    intro i hi
    show s1.m_V i < 256
    by_cases hi15 : i = 15
    · subst hi15
      rcases hcl with hcl | hcl <;> rw [hcl] <;> simp
    · rw [hv i hi15, if_neg hi15]; exact hwf.V_lt i hi
  · -- LD Vx, K
    obtain ⟨⟨b1, d1⟩, h1, h2⟩ := Option.bind_eq_some.1 h
    rcases keyLoop_some _ _ _ _ _ h1 with ⟨hb, hds⟩ | ⟨hb, k, hk, hds⟩ <;>
      rw [hb, hds] at h2 <;> simp at h2 <;> obtain ⟨-, rfl⟩ := h2
    · exact ⟨⟨hop, hwf.memory_lt, hwf.V_lt, hI, Nat.mod_lt _ (by decide), hdl, hsd,
        hwf.stack_lt, hsp⟩, Or.inl (by show (s.m_pc + 65534) % 65536 ≤ 4350; omega), hst⟩
    · refine ⟨⟨hop, hwf.memory_lt, ?_, hI, hwf.pc_lt, hdl, hsd, hwf.stack_lt, hsp⟩,
        Or.inl (by show s.m_pc ≤ 4350; omega), hst⟩
      intro i hi
      show store s.m_V (opX s) k i < 256
      simp only [store]
      split_ifs
      · omega
      · exact hwf.V_lt i hi
  · -- LD [I], Vx
    obtain ⟨s1, h1, h2⟩ := Option.bind_eq_some.1 h
    simp only [Option.some.injEq, Prod.mk.injEq] at h2
    obtain ⟨-, rfl⟩ := h2
    obtain ⟨hfr, -, hm⟩ := storeLoop_some _ _ _ _ h1
    have e1 : s1.m_opcode = s.m_opcode := by rw [hfr]
    have e2 : s1.m_V = s.m_V := by rw [hfr]
    have e4 : s1.m_pc = s.m_pc := by rw [hfr]
    have e5 : s1.m_delay_timer = s.m_delay_timer := by rw [hfr]
    have e6 : s1.m_sound_timer = s.m_sound_timer := by rw [hfr]
    have e7 : s1.m_stack = s.m_stack := by rw [hfr]
    have e8 : s1.m_sp = s.m_sp := by rw [hfr]
    exact ⟨⟨by simpa [e1] using hop, hm hwf.V_lt hwf.memory_lt, by simpa [e2] using hwf.V_lt,
      Nat.mod_lt _ (by decide), by simp only [e4]; omega, by simpa [e5] using hdl,
      by simpa [e6] using hsd, by simpa [e7] using hwf.stack_lt, by simpa [e8] using hsp⟩,
      Or.inl (by simp only [e4]; omega), by simpa [e7] using hst⟩
  · -- LD Vx, [I]
    obtain ⟨s1, h1, h2⟩ := Option.bind_eq_some.1 h
    simp only [Option.some.injEq, Prod.mk.injEq] at h2
    obtain ⟨-, rfl⟩ := h2
    obtain ⟨hfr, hv⟩ := loadLoopV_some _ _ _ _ h1
    have e1 : s1.m_opcode = s.m_opcode := by rw [hfr]
    have e2 : s1.m_memory = s.m_memory := by rw [hfr]
    have e4 : s1.m_pc = s.m_pc := by rw [hfr]
    have e5 : s1.m_delay_timer = s.m_delay_timer := by rw [hfr]
    have e6 : s1.m_sound_timer = s.m_sound_timer := by rw [hfr]
    have e7 : s1.m_stack = s.m_stack := by rw [hfr]
    have e8 : s1.m_sp = s.m_sp := by rw [hfr]
    exact ⟨⟨by simpa [e1] using hop, by simpa [e2] using hwf.memory_lt, hv hwf.V_lt hwf.memory_lt,
      Nat.mod_lt _ (by decide), by simp only [e4]; omega, by simpa [e5] using hdl,
      by simpa [e6] using hsd, by simpa [e7] using hwf.stack_lt, by simpa [e8] using hsp⟩,
      Or.inl (by simp only [e4]; omega), by simpa [e7] using hst⟩

/-- The timer update keeps the values inside their types. -/
theorem updateTimers_WF (s : CHIP8) (hwf : WF s) : WF (updateTimers s) where
  opcode_lt := by simpa using hwf.opcode_lt
  memory_lt := by simpa using hwf.memory_lt
  V_lt := by simpa using hwf.V_lt
  I_lt := by simpa using hwf.I_lt
  pc_lt := by simpa using hwf.pc_lt
  delay_lt := by rw [updateTimers_m_delay_timer]; have := hwf.delay_lt; omega
  sound_lt := by rw [updateTimers_m_sound_timer]; have := hwf.sound_lt; omega
  stack_lt := by simpa using hwf.stack_lt
  sp_lt := by simpa using hwf.sp_lt

/-! ## Cycles and reachable states -/

/-- A completed cycle in pieces: the fetch was inside the memory, and the result is
the decoded state, after the timer update when the instruction completed. -/
theorem emulateCycle_some (r : Nat) (s s1 : CHIP8) (h : emulateCycle r s = some s1) :
    s.m_pc + 1 < 4096 ∧ ∃ b d,
      decodeOpcode r { s with
        m_opcode := ((s.m_memory s.m_pc <<< 8) ||| s.m_memory (s.m_pc + 1)) % 65536,
        m_pc := (s.m_pc + 2) % 65536 } = some (b, d) ∧
      s1 = (if b = false then d else updateTimers d) := by
  simp only [emulateCycle, arrAt] at h
  split_ifs at h with h0 h1
  · simp only [Option.some_bind] at h
    obtain ⟨⟨b, d⟩, hd, h2⟩ := Option.bind_eq_some.1 h
    refine ⟨h1, b, d, hd, ?_⟩
    dsimp only at h2
    split_ifs at h2 with hb
    · rw [if_pos hb]; exact (Option.some.inj h2).symm
    · rw [if_neg hb]; exact (Option.some.inj h2).symm
  all_goals simp at h

/-- A completed cycle keeps the values inside their types and a bound of at least
4096 on the stack entries, and leaves the program counter at 4350 or less or at a
stack entry. -/
theorem emulateCycle_WF (r : Nat) (s s1 : CHIP8) (B : Nat) (hwf : WF s) (hB : 4096 ≤ B)
    (hst : ∀ i, i < 16 → s.m_stack i ≤ B) (h : emulateCycle r s = some s1) :
    WF s1 ∧ (s1.m_pc ≤ 4350 ∨ s1.m_pc ≤ B) ∧ (∀ i, i < 16 → s1.m_stack i ≤ B) := by
  obtain ⟨hpc, b, d, hd, rfl⟩ := emulateCycle_some r s s1 h
  have hpc2 : (s.m_pc + 2) % 65536 = s.m_pc + 2 := by omega
  rw [hpc2] at hd
  have hw0 : WF { s with
      m_opcode := ((s.m_memory s.m_pc <<< 8) ||| s.m_memory (s.m_pc + 1)) % 65536,
      m_pc := s.m_pc + 2 } :=
    ⟨Nat.mod_lt _ (by decide), hwf.memory_lt, hwf.V_lt, hwf.I_lt,
      (by show s.m_pc + 2 < 65536; omega), hwf.delay_lt, hwf.sound_lt, hwf.stack_lt, hwf.sp_lt⟩
  obtain ⟨hw, hp, hs⟩ := decode_WF r _ d b B hw0
    (by show 2 ≤ s.m_pc + 2; omega) (by show s.m_pc + 2 ≤ 4096; omega) hB hst hd
  by_cases hb : b = false
  · rw [if_pos hb]; exact ⟨hw, hp, hs⟩
  · rw [if_neg hb]
    exact ⟨updateTimers_WF d hw, by simpa using hp, by simpa using hs⟩

theorem WF_loadGame (file : Option (List Nat)) (s : CHIP8) (h : loadGame file ctor = some s) :
    WF s ∧ s.m_pc = 0x200 ∧ (∀ i, s.m_stack i = 0) := by
  cases file with
  | none =>
    simp only [loadGame, Option.some.injEq] at h
    subst h
    exact ⟨WF_ctor, rfl, fun _ => rfl⟩
  | some bytes =>
    simp only [loadGame] at h
    by_cases hlen : 0x200 + bytes.length < 4096
    · rw [loadLoop_ok bytes _ _ hlen] at h
      simp only [Option.map_some', Option.some.injEq] at h
      subst h
      refine ⟨⟨WF_ctor.opcode_lt, ?_, WF_ctor.V_lt, WF_ctor.I_lt, WF_ctor.pc_lt,
        WF_ctor.delay_lt, WF_ctor.sound_lt, WF_ctor.stack_lt, WF_ctor.sp_lt⟩, rfl, fun _ => rfl⟩
      intro a ha
      show (if 0x200 ≤ a ∧ a < 0x200 + bytes.length then bytes.getD (a - 0x200) 0 % 256
        else if a = 0x200 + bytes.length then 255 else ctor.m_memory a) < 256
      split_ifs
      · exact Nat.mod_lt _ (by decide)
      · decide
      · exact WF_ctor.memory_lt a ha
    · rw [loadLoop_fault bytes _ _ (by omega)] at h
      simp at h

/-- Every reachable state has its values inside their types, at most 4096 in every
stack entry and at most 4350 in the program counter. -/
theorem Reachable_inv (s : CHIP8) (h : Reachable s) :
    WF s ∧ s.m_pc ≤ 4350 ∧ (∀ i, i < 16 → s.m_stack i ≤ 4096) := by
  induction h with
  | load file s h =>
    obtain ⟨hw, hp, hs⟩ := WF_loadGame file s h
    exact ⟨hw, by rw [hp]; decide, fun i _ => by rw [hs i]; decide⟩
  | cycle r s s1 _ h ih =>
    obtain ⟨hw, hp, hs⟩ := emulateCycle_WF r s s1 4096 ih.1 (Nat.le_refl _) ih.2.2 h
    exact ⟨hw, by omega, hs⟩
  | keys key state s s1 _ h ih =>
    simp only [setKeys, arrSet] at h
    split_ifs at h
    · simp only [Option.map_some', Option.some.injEq] at h
      subst h
      exact ⟨⟨ih.1.opcode_lt, ih.1.memory_lt, ih.1.V_lt, ih.1.I_lt, ih.1.pc_lt, ih.1.delay_lt,
        ih.1.sound_lt, ih.1.stack_lt, ih.1.sp_lt⟩, ih.2.1, ih.2.2⟩
    · simp at h
  | drawn s _ ih =>
    exact ⟨⟨ih.1.opcode_lt, ih.1.memory_lt, ih.1.V_lt, ih.1.I_lt, ih.1.pc_lt, ih.1.delay_lt,
      ih.1.sound_lt, ih.1.stack_lt, ih.1.sp_lt⟩, ih.2.1, ih.2.2⟩

/-- The opcode a cycle fetches, for a cycle whose fetch is inside the memory. -/
theorem fetches_of_pc (s : CHIP8) (hmem : ∀ a, a < 4096 → s.m_memory a < 256)
    (hpc : s.m_pc + 1 < 4096) :
    fetches s (s.m_memory s.m_pc * 256 + s.m_memory (s.m_pc + 1)) ∧
      ((s.m_memory s.m_pc <<< 8) ||| s.m_memory (s.m_pc + 1)) % 65536
        = s.m_memory s.m_pc * 256 + s.m_memory (s.m_pc + 1) := by
  have h1 := hmem _ hpc
  have h0 := hmem s.m_pc (by omega)
  refine ⟨⟨hpc, by omega, by omega⟩, ?_⟩
  rw [shl8_or _ _ h1]
  omega

/-- One completed cycle leaves the memory below 80 alone, unless it executes 0xFX33
or 0xFX55 with the index register below 80. -/
theorem emulateCycle_low_memory (r : Nat) (s s1 : CHIP8) (hwf : WF s)
    (hsafe : ∀ op, fetches s op → op / 4096 = 15 → (op % 256 = 0x33 ∨ op % 256 = 0x55) →
      80 ≤ s.m_I)
    (h : emulateCycle r s = some s1) :
    ∀ a, a < 80 → s1.m_memory a = s.m_memory a := by
  obtain ⟨hpc, b, d, hd, rfl⟩ := emulateCycle_some r s s1 h
  obtain ⟨hf, hop⟩ := fetches_of_pc s hwf.memory_lt hpc
  rw [hop] at hd
  obtain ⟨-, -, -, hlow, hsame⟩ := decode_frame r _ d b hd
  simp only at hlow hsame
  have hd80 : ∀ a, a < 80 → d.m_memory a = s.m_memory a := by
    intro a ha
    rcases hsame with hsame | ⟨hc, hsub⟩
    · rw [hsame]
    · have h0 := hwf.memory_lt s.m_pc (by omega)
      have h1 := hwf.memory_lt _ hpc
      have hI := hsafe _ hf (by omega) hsub
      exact hlow a (by omega)
  intro a ha
  by_cases hb : b = false
  · rw [if_pos hb]; exact hd80 a ha
  · rw [if_neg hb, updateTimers_m_memory]; exact hd80 a ha

/-! ## Jumps, and the faults of the index-relative instructions -/

theorem decode_JP (r : Nat) (s : CHIP8) (h : s.m_opcode / 4096 % 16 = 1) :
    decodeOpcode r s = op_JP s := by
  simp [decodeOpcode, land_F000, h]

/-- With the opcode fetched, the cycle faults exactly when the decoding does. -/
theorem emulateCycle_none_iff (r : Nat) (s : CHIP8) (op : Nat)
    (hmem : ∀ a, a < 4096 → s.m_memory a < 256) (hf : fetches s op) :
    emulateCycle r s = none ↔
      decodeOpcode r { s with m_opcode := op, m_pc := s.m_pc + 2 } = none := by
  rw [emulateCycle_of_fetches r s op hmem hf]
  cases hd : decodeOpcode r { s with m_opcode := op, m_pc := s.m_pc + 2 } with
  | none => simp
  | some d =>
    simp only [Option.some_bind]
    split_ifs <;> simp

/-- The draw loop faults when one of its sprite rows lies beyond the memory. -/
theorem drwRows_fault (x0 y0 : Nat) (n : Nat) : ∀ (y : Nat) (s : CHIP8),
    (∃ row, y ≤ row ∧ row < y + n ∧ 4096 ≤ s.m_I + row) → drwRows x0 y0 n y s = none := by
  induction n with
  | zero => rintro y s ⟨row, h1, h2, -⟩; omega
  | succ n ih =>
    rintro y s ⟨row, h1, h2, h3⟩
    simp only [drwRows, arrAt]
    by_cases hy : s.m_I + y < 4096
    · obtain ⟨s1, hs1, hfr, -⟩ := drwCols_spec (s.m_memory (s.m_I + y)) x0 y0 y 8 0 s
      rw [if_pos hy, Option.some_bind, hs1, Option.some_bind]
      refine ih (y + 1) s1 ⟨row, ?_, by omega, ?_⟩
      · by_contra hlt
        have : row = y := by omega
        subst this
        omega
      · rw [hfr]; exact h3
    · rw [if_neg hy]; rfl

theorem op_DRW_none_iff (s : CHIP8) :
    op_DRW s = none ↔ ∃ row, row < s.m_opcode % 16 ∧ 4096 ≤ s.m_I + row := by
  simp only [op_DRW, arrAt_lt _ (opX_lt s), arrAt_lt _ (opY_lt s),
    arrSet_lt s.m_V 0 (by decide : 0xF < 16), Option.some_bind, land_000F]
  constructor
  · intro h
    by_contra hno
    obtain ⟨s1, hs1, -⟩ := drwRows_spec (s.m_V (opX s) % 64) (s.m_V (opY s) % 32)
      (s.m_opcode % 16) 0 { s with m_V := store s.m_V 0xF 0 }
      (fun row _ hr => by
        by_contra hge
        exact hno ⟨row, by omega, by simp only at hge; omega⟩)
    rw [hs1] at h
    simp at h
  · rintro ⟨row, h1, h2⟩
    rw [drwRows_fault (s.m_V (opX s) % 64) (s.m_V (opY s) % 32) (s.m_opcode % 16) 0
      { s with m_V := store s.m_V 0xF 0 } ⟨row, Nat.zero_le _, by omega, h2⟩]
    rfl

theorem op_LD_B_none_iff (s : CHIP8) : op_LD_B s = none ↔ 4095 < s.m_I + 2 := by
  simp only [op_LD_B, arrAt_lt _ (opX_lt s), Option.some_bind, arrSet]
  by_cases h0 : s.m_I < 4096
  · by_cases h1 : s.m_I + 1 < 4096
    · by_cases h2 : s.m_I + 2 < 4096
      · simp [h0, h1, h2]; omega
      · simp [h0, h1, h2]; omega
    · simp [h0, h1]; omega
  · simp [h0]; omega

/-- The store loop faults when its last address lies beyond the memory. -/
theorem storeLoop_fault (n : Nat) : ∀ (i : Nat) (s : CHIP8), i + n ≤ 16 → 0 < n →
    4096 < s.m_I + i + n → storeLoop n i s = none := by
  induction n with
  | zero => intro i s _ h; omega
  | succ n ih =>
    intro i s hi _ hI
    simp only [storeLoop, arrAt_lt s.m_V (by omega : i < 16), Option.some_bind, arrSet]
    by_cases h0 : s.m_I + i < 4096
    · rw [if_pos h0, Option.some_bind]
      exact ih (i + 1) _ (by omega) (by omega) (by simp only; omega)
    · rw [if_neg h0]; rfl

/-- The load loop faults when its last address lies beyond the memory. -/
theorem loadLoopV_fault (n : Nat) : ∀ (i : Nat) (s : CHIP8), i + n ≤ 16 → 0 < n →
    4096 < s.m_I + i + n → loadLoopV n i s = none := by
  induction n with
  | zero => intro i s _ h; omega
  | succ n ih =>
    intro i s hi _ hI
    simp only [loadLoopV, arrAt, arrSet_lt s.m_V _ (by omega : i < 16)]
    by_cases h0 : s.m_I + i < 4096
    · rw [if_pos h0, Option.some_bind, Option.some_bind]
      exact ih (i + 1) _ (by omega) (by omega) (by simp only; omega)
    · rw [if_neg h0]; rfl

theorem op_LD_mem_Vx_none_iff (s : CHIP8) :
    op_LD_mem_Vx s = none ↔ 4095 < s.m_I + opX s := by
  have hx := opX_lt s
  simp only [op_LD_mem_Vx]
  constructor
  · intro h
    by_contra hno
    rw [storeLoop_eq (opX s + 1) 0 s (by omega) (by omega)] at h
    simp at h
  · intro h
    rw [storeLoop_fault (opX s + 1) 0 s (by omega) (by omega) (by omega)]
    rfl

theorem op_LD_Vx_mem_none_iff (s : CHIP8) :
    op_LD_Vx_mem s = none ↔ 4095 < s.m_I + opX s := by
  have hx := opX_lt s
  simp only [op_LD_Vx_mem]
  constructor
  · intro h
    by_contra hno
    rw [loadLoopV_eq (opX s + 1) 0 s (by omega) (by omega)] at h
    simp at h
  · intro h
    rw [loadLoopV_fault (opX s + 1) 0 s (by omega) (by omega) (by omega)]
    rfl

/-! ## The claims -/

/-- C1. Code at the failing input, the ROM of fifteen nested calls followed by
`CALL 0x222` with `RET` at 0x222, loaded into a fresh machine. Fifteen cycles complete
and leave `m_sp = 15` (fifteen return addresses on the 16-entry stack, which is not
full), the program counter at p = 0x21E where the bytes 22 22 stand, and the bytes
00 EE at 0x222. The next cycle, the call fetched at p, faults, so the call and the
return do not leave `m_pc = p + 2 = 0x220` and `m_sp = 15`. -/
theorem call_with_fifteen_entries_faults :
    ((loadGame (some fifteenCallsRom) ctor).bind (run (fun _ => 0) 15)).map
      (fun s => (s.m_sp, s.m_pc, s.m_memory s.m_pc, s.m_memory (s.m_pc + 1),
        s.m_memory 0x222, s.m_memory 0x223)) = some (15, 0x21E, 0x22, 0x22, 0x00, 0xEE) ∧
    (((loadGame (some fifteenCallsRom) ctor).bind (run (fun _ => 0) 15)).bind
      (emulateCycle 0)).isNone = true := by
  decide

/-- C2. Code at the failing input, the ROM `22 00` (CALL 0x200 at 0x200, a call nested
in itself at every cycle) loaded into a fresh machine: the stack starts empty, fifteen
cycles complete and leave `m_sp = 15`, and the sixteenth cycle, the sixteenth nested
call, faults. -/
theorem sixteenth_nested_call_faults :
    (loadGame (some [0x22, 0x00]) ctor).map (fun s => s.m_sp) = some 0 ∧
    ((loadGame (some [0x22, 0x00]) ctor).bind (run (fun _ => 0) 15)).map
      (fun s => (s.m_sp, s.m_pc)) = some (15, 0x200) ∧
    ((loadGame (some [0x22, 0x00]) ctor).bind (run (fun _ => 0) 16)).isNone = true := by
  decide

/-- C3. Code at the failing input, the ROM `00 EE` (RET at 0x200) loaded into a fresh
machine: the stack pointer is 0, and the cycle does not fault: it completes with
`m_pc = m_stack[0] = 0` and the stack pointer wrapped to 65535. -/
theorem ret_on_empty_stack_completes :
    (loadGame (some [0x00, 0xEE]) ctor).map (fun s => s.m_sp) = some 0 ∧
    ((loadGame (some [0x00, 0xEE]) ctor).bind (emulateCycle 0)).map
      (fun s => (s.m_pc, s.m_sp)) = some (0, 65535) := by
  decide

/-- C4. Add with carry (0x8XY4): for register indices X, Y other than 0xF, the cycle
completes with `Vx = (old Vx + old Vy) mod 256` and `VF = 1` when the sum exceeds
255, `VF = 0` otherwise. -/
theorem add_with_carry (r : Nat) (s : CHIP8) (X Y : Nat) (hwf : WF s)
    (hX : X < 16) (hXF : X ≠ 0xF) (hY : Y < 16) (hYF : Y ≠ 0xF)
    (hf : fetches s (0x8004 + X * 256 + Y * 16)) :
    ∃ s1, emulateCycle r s = some s1 ∧
      s1.m_V X = (s.m_V X + s.m_V Y) % 256 ∧
      s1.m_V 0xF = (if s.m_V X + s.m_V Y > 255 then 1 else 0) := by
  have hx : opX { s with m_opcode := 0x8004 + X * 256 + Y * 16, m_pc := s.m_pc + 2 } = X :=
    opX_eq _ X (by simp; omega)
  have hy : opY { s with m_opcode := 0x8004 + X * 256 + Y * 16, m_pc := s.m_pc + 2 } = Y :=
    opY_eq _ Y (by simp; omega)
  have h4 : (0x8004 + X * 256 + Y * 16) % 16 = 4 := by omega
  have hd := decode_8 r { s with m_opcode := 0x8004 + X * 256 + Y * 16, m_pc := s.m_pc + 2 }
    (by simp; omega)
  simp only [h4] at hd
  simp [op_ADD_reg, hx, hy, arrAt, arrSet, hX, hY] at hd
  refine ⟨_, emulateCycle_of_decode r s _ _ hwf.memory_lt hf hd, ?_, ?_⟩
  · simp [store, hXF, hYF]
  · have := hwf.V_lt X hX
    have hne : (15 : Nat) ≠ X := fun h => hXF h.symm
    simp [store, hne]
    by_cases h : s.m_V X + s.m_V Y > 255
    · rw [if_pos (by omega), if_pos (by omega)]
    · rw [if_neg (by omega), if_neg (by omega)]

/-- C4 on the two examples: V0 = 0xFF, V1 = 0x01 and opcode 0x8014 give V0 = 0x00,
VF = 1; V0 = 0x01 gives V0 = 0x02, VF = 0. -/
theorem add_with_carry_witness :
    (∃ s1, emulateCycle 0 (machine [0x80, 0x14] [0xFF, 0x01] 0) = some s1 ∧
      s1.m_V 0 = 0x00 ∧ s1.m_V 0xF = 1) ∧
    (∃ s1, emulateCycle 0 (machine [0x80, 0x14] [0x01, 0x01] 0) = some s1 ∧
      s1.m_V 0 = 0x02 ∧ s1.m_V 0xF = 0) :=
  ⟨add_with_carry 0 (machine [0x80, 0x14] [0xFF, 0x01] 0) 0 1
      (WF_machine _ _ _ (by decide) (by decide) (by decide))
      (by decide) (by decide) (by decide) (by decide) (by unfold fetches; decide),
   add_with_carry 0 (machine [0x80, 0x14] [0x01, 0x01] 0) 0 1
      (WF_machine _ _ _ (by decide) (by decide) (by decide))
      (by decide) (by decide) (by decide) (by decide) (by unfold fetches; decide)⟩

/-- C5. Subtract with borrow (0x8XY5): for register indices X, Y other than 0xF, the
cycle completes with `Vx = (old Vx - old Vy) mod 256`, `VF = 1` exactly when
`old Vx >= old Vy` and `VF = 0` exactly when `old Vx < old Vy`. -/
theorem sub_with_borrow (r : Nat) (s : CHIP8) (X Y : Nat) (hwf : WF s)
    (hX : X < 16) (hXF : X ≠ 0xF) (hY : Y < 16) (hYF : Y ≠ 0xF)
    (hf : fetches s (0x8005 + X * 256 + Y * 16)) :
    ∃ s1, emulateCycle r s = some s1 ∧
      (s1.m_V X : Int) = ((s.m_V X : Int) - (s.m_V Y : Int)) % 256 ∧
      (s1.m_V 0xF = 1 ↔ s.m_V X ≥ s.m_V Y) ∧
      (s1.m_V 0xF = 0 ↔ s.m_V X < s.m_V Y) := by
  have hx : opX { s with m_opcode := 0x8005 + X * 256 + Y * 16, m_pc := s.m_pc + 2 } = X :=
    opX_eq _ X (by simp; omega)
  have hy : opY { s with m_opcode := 0x8005 + X * 256 + Y * 16, m_pc := s.m_pc + 2 } = Y :=
    opY_eq _ Y (by simp; omega)
  have h5 : (0x8005 + X * 256 + Y * 16) % 16 = 5 := by omega
  have hd := decode_8 r { s with m_opcode := 0x8005 + X * 256 + Y * 16, m_pc := s.m_pc + 2 }
    (by simp; omega)
  simp only [h5] at hd
  simp [op_SUB, hx, hy, arrAt, arrSet, hX, hY] at hd
  have hne : (15 : Nat) ≠ X := fun h => hXF h.symm
  refine ⟨_, emulateCycle_of_decode r s _ _ hwf.memory_lt hf hd, ?_, ?_, ?_⟩
  · simp [store, hXF, hYF]
    omega
  · simp [store, hne]
  · simp [store, hne]

/-- C5 on the example: V0 = 0x01, V1 = 0x02 and opcode 0x8015 give V0 = 0xFF, VF = 0. -/
theorem sub_with_borrow_witness :
    ∃ s1, emulateCycle 0 (machine [0x80, 0x15] [0x01, 0x02] 0) = some s1 ∧
      (s1.m_V 0 : Int) = 0xFF ∧ s1.m_V 0xF = 0 := by
  obtain ⟨s1, h, hx, -, hf⟩ := sub_with_borrow 0 (machine [0x80, 0x15] [0x01, 0x02] 0) 0 1
    (WF_machine _ _ _ (by decide) (by decide) (by decide))
    (by decide) (by decide) (by decide) (by decide) (by unfold fetches; decide)
  exact ⟨s1, h, hx, hf.mpr (by decide)⟩

/-- C6. Shift right (0x8XY6): for a register index X other than 0xF and every Y, the
cycle completes with `VF = old Vx mod 2` (bit 0), `Vx = old Vx / 2` rounded down, and
every other register as it was: the result does not depend on Y or on Vy. -/
theorem shift_right (r : Nat) (s : CHIP8) (X Y : Nat) (hwf : WF s)
    (hX : X < 16) (hXF : X ≠ 0xF) (hY : Y < 16)
    (hf : fetches s (0x8006 + X * 256 + Y * 16)) :
    ∃ s1, emulateCycle r s = some s1 ∧
      s1.m_V 0xF = s.m_V X % 2 ∧
      s1.m_V X = s.m_V X / 2 ∧
      ∀ i, i ≠ X → i ≠ 0xF → s1.m_V i = s.m_V i := by
  have hx : opX { s with m_opcode := 0x8006 + X * 256 + Y * 16, m_pc := s.m_pc + 2 } = X :=
    opX_eq _ X (by simp; omega)
  have h6 : (0x8006 + X * 256 + Y * 16) % 16 = 6 := by omega
  have hd := decode_8 r { s with m_opcode := 0x8006 + X * 256 + Y * 16, m_pc := s.m_pc + 2 }
    (by simp; omega)
  simp only [h6] at hd
  simp [op_SHR, hx, arrAt, arrSet, hX] at hd
  have hne : (15 : Nat) ≠ X := fun h => hXF h.symm
  have hv := hwf.V_lt X hX
  refine ⟨_, emulateCycle_of_decode r s _ _ hwf.memory_lt hf hd, ?_, ?_, ?_⟩
  · simp [store, hne]
    omega
  · simp [store, hXF, Nat.shiftRight_eq_div_pow]
    omega
  · intro i hiX hiF
    simp [store, hiX, hiF]

/-- C6 on the example: V0 = 0x03 and opcode 0x8006 give VF = 1, V0 = 0x01. -/
theorem shift_right_witness :
    ∃ s1, emulateCycle 0 (machine [0x80, 0x06] [0x03] 0) = some s1 ∧
      s1.m_V 0xF = 1 ∧ s1.m_V 0 = 0x01 ∧
      ∀ i, i ≠ 0 → i ≠ 0xF → s1.m_V i = (machine [0x80, 0x06] [0x03] 0).m_V i :=
  shift_right 0 (machine [0x80, 0x06] [0x03] 0) 0 0
    (WF_machine _ _ _ (by decide) (by decide) (by decide))
    (by decide) (by decide) (by decide) (by unfold fetches; decide)

/-- C7. BCD (0xFX33): for every register index X and `I + 2 <= 4095` the cycle
completes with `memory[I] = Vx / 100`, `memory[I+1] = (Vx / 10) mod 10`,
`memory[I+2] = Vx mod 10`; each of the three is a decimal digit and
`100 * memory[I] + 10 * memory[I+1] + memory[I+2] = Vx`; every other memory byte, the
registers and I are unchanged. -/
theorem bcd (r : Nat) (s : CHIP8) (X : Nat) (hwf : WF s) (hX : X < 16)
    (hI : s.m_I + 2 ≤ 4095) (hf : fetches s (0xF033 + X * 256)) :
    ∃ s1, emulateCycle r s = some s1 ∧
      s1.m_memory s.m_I = s.m_V X / 100 ∧
      s1.m_memory (s.m_I + 1) = (s.m_V X / 10) % 10 ∧
      s1.m_memory (s.m_I + 2) = s.m_V X % 10 ∧
      s1.m_memory s.m_I ≤ 9 ∧ s1.m_memory (s.m_I + 1) ≤ 9 ∧ s1.m_memory (s.m_I + 2) ≤ 9 ∧
      100 * s1.m_memory s.m_I + 10 * s1.m_memory (s.m_I + 1) + s1.m_memory (s.m_I + 2)
        = s.m_V X ∧
      (∀ a, a ≠ s.m_I → a ≠ s.m_I + 1 → a ≠ s.m_I + 2 → s1.m_memory a = s.m_memory a) ∧
      s1.m_V = s.m_V ∧ s1.m_I = s.m_I := by
  have hx : opX { s with m_opcode := 0xF033 + X * 256, m_pc := s.m_pc + 2 } = X :=
    opX_eq _ X (by simp; omega)
  have hsub : (0xF033 + X * 256) % 256 = 0x33 := by omega
  have hd := decode_F r { s with m_opcode := 0xF033 + X * 256, m_pc := s.m_pc + 2 }
    (by simp; omega)
  simp only [hsub] at hd
  have h0 : s.m_I < 4096 := by omega
  have h1 : s.m_I + 1 < 4096 := by omega
  have h2 : s.m_I + 2 < 4096 := by omega
  simp [op_LD_B, hx, arrAt, arrSet, hX, h0, h1, h2] at hd
  have hv := hwf.V_lt X hX
  have e0 : s.m_V X % 1000 / 100 % 256 = s.m_V X / 100 := by omega
  have e1 : s.m_V X % 100 / 10 % 256 = s.m_V X / 10 % 10 := by omega
  have e2 : s.m_V X % 10 % 256 = s.m_V X % 10 := by omega
  rw [e0, e1, e2] at hd
  refine ⟨_, emulateCycle_of_decode r s _ _ hwf.memory_lt hf hd,
    ?_, ?_, ?_, ?_, ?_, ?_, ?_, ?_, ?_, ?_⟩
  · simp [store]
  · simp [store]
  · simp [store]
  · simp [store]; omega
  · simp [store]; omega
  · simp [store]; omega
  · simp [store]; omega
  · intro a ha0 ha1 ha2
    simp [store, ha0, ha1, ha2]
  · simp
  · simp

/-- C7 on the example: V0 = 234 and opcode 0xF033 write 2, 3, 4 at I, I+1, I+2. -/
theorem bcd_witness :
    ∃ s1, emulateCycle 0 (machine [0xF0, 0x33] [234] 0x300) = some s1 ∧
      s1.m_memory 0x300 = 2 ∧ s1.m_memory 0x301 = 3 ∧ s1.m_memory 0x302 = 4 := by
  obtain ⟨s1, h, h0, h1, h2, -⟩ := bcd 0 (machine [0xF0, 0x33] [234] 0x300) 0
    (WF_machine _ _ _ (by decide) (by decide) (by decide)) (by decide) (by decide)
    (by unfold fetches; decide)
  exact ⟨s1, h, h0, h1, h2⟩

/-- C8. Block store (0xFX55): for X in 0..15 and `I + X <= 4095` the cycle completes
with `memory[I + i] = Vi` for every i in 0..X, every memory byte outside `[I, I+X]`
unchanged, the registers unchanged, and the index register at `old I + X + 1`. -/
theorem block_store (r : Nat) (s : CHIP8) (X : Nat) (hwf : WF s) (hX : X < 16)
    (hI : s.m_I + X ≤ 4095) (hf : fetches s (0xF055 + X * 256)) :
    ∃ s1, emulateCycle r s = some s1 ∧
      (∀ i, i ≤ X → s1.m_memory (s.m_I + i) = s.m_V i) ∧
      (∀ a, a < s.m_I ∨ s.m_I + X < a → s1.m_memory a = s.m_memory a) ∧
      s1.m_V = s.m_V ∧
      s1.m_I = s.m_I + X + 1 := by
  refine ⟨_, cycle_store r s X hwf.memory_lt hX hI hf, ?_, ?_, ?_, ?_⟩
  · intro i hi
    simp
    intro h
    omega
  · intro a ha
    simp
    intro h1 h2
    omega
  · simp
  · simp; omega

/-- C8 on the example: 0xF555 with V0..V5 = 1..6 and I = 0x300 writes the six bytes
and sets I to 0x306. -/
theorem block_store_witness :
    ∃ s1, emulateCycle 0 (machine [0xF5, 0x55] [1, 2, 3, 4, 5, 6] 0x300) = some s1 ∧
      (∀ i, i ≤ 5 → s1.m_memory (0x300 + i) = [1, 2, 3, 4, 5, 6].getD i 0) ∧
      s1.m_I = 0x306 := by
  obtain ⟨s1, h, h0, -, -, h3⟩ := block_store 0 (machine [0xF5, 0x55] [1, 2, 3, 4, 5, 6] 0x300) 5
    (WF_machine _ _ _ (by decide) (by decide) (by decide)) (by decide) (by decide)
    (by unfold fetches; decide)
  exact ⟨s1, h, h0, h3⟩

/-- C9. Block store/load round trip: for X in 0..15 and `I + X <= 4095` the store
cycle 0xFX55 completes; if then I is set back to its value before the store and the
registers are replaced by any `V2`, and 0xFX65 is the opcode fetched next, the load
cycle completes with V0..VX equal to their values before the store, the registers
above X as `V2` left them, and `I = old I + X + 1`. -/
theorem store_load_round_trip (r1 r2 : Nat) (s : CHIP8) (X : Nat) (hwf : WF s) (hX : X < 16)
    (hI : s.m_I + X ≤ 4095) (hf : fetches s (0xF055 + X * 256)) :
    ∃ s1, emulateCycle r1 s = some s1 ∧
      ∀ V2 : Nat → Nat,
        fetches { s1 with m_I := s.m_I, m_V := V2 } (0xF065 + X * 256) →
        ∃ s3, emulateCycle r2 { s1 with m_I := s.m_I, m_V := V2 } = some s3 ∧
          (∀ i, i ≤ X → s3.m_V i = s.m_V i) ∧
          (∀ i, X < i → s3.m_V i = V2 i) ∧
          s3.m_I = s.m_I + X + 1 := by
  refine ⟨_, cycle_store r1 s X hwf.memory_lt hX hI hf, ?_⟩
  intro V2 hf2
  refine ⟨_, cycle_load r2 _ X ?_ hX (by simpa using hI) hf2, ?_, ?_, ?_⟩
  · intro a ha
    simp only [updateTimers_m_memory]
    split_ifs with h
    · exact hwf.V_lt _ (by omega)
    · exact hwf.memory_lt a ha
  · intro i hi
    have h1 : i < X + 1 := by omega
    simp [h1]
  · intro i hi
    have h1 : ¬ i < X + 1 := by omega
    simp [h1]
  · simp; omega

/-- C9 at the program `F5 55 F5 65` with V0..V5 = 1..6 and I = 0x300: after the store
the registers are zeroed and I reset; the load brings V0..V5 back. -/
theorem store_load_round_trip_witness :
    ∃ s1, emulateCycle 0 (machine [0xF5, 0x55, 0xF5, 0x65] [1, 2, 3, 4, 5, 6] 0x300) = some s1 ∧
      ∃ s3, emulateCycle 0 { s1 with m_I := 0x300, m_V := fun _ => 0 } = some s3 ∧
        (∀ i, i ≤ 5 → s3.m_V i = [1, 2, 3, 4, 5, 6].getD i 0) ∧ s3.m_I = 0x306 := by
  have hwf : WF (machine [0xF5, 0x55, 0xF5, 0x65] [1, 2, 3, 4, 5, 6] 0x300) :=
    WF_machine _ _ _ (by decide) (by decide) (by decide)
  have hf : fetches (machine [0xF5, 0x55, 0xF5, 0x65] [1, 2, 3, 4, 5, 6] 0x300)
      (0xF055 + 5 * 256) := by unfold fetches; decide
  obtain ⟨s1, h, hload⟩ := store_load_round_trip 0 0
    (machine [0xF5, 0x55, 0xF5, 0x65] [1, 2, 3, 4, 5, 6] 0x300) 5 hwf (by decide) (by decide) hf
  have hs1 := cycle_store 0 _ 5 hwf.memory_lt (by decide) (by decide) hf
  rw [hs1] at h
  have e : updateTimers _ = s1 := Option.some.inj h
  have hf2 : fetches { s1 with m_I := 0x300, m_V := fun _ => 0 } (0xF065 + 5 * 256) := by
    rw [← e]
    simp only [fetches, updateTimers_m_pc, updateTimers_m_memory]
    decide
  obtain ⟨s3, h3, hv, -, hi⟩ := hload (fun _ => 0) hf2
  exact ⟨s1, by rw [hs1, e], s3, h3, hv, hi⟩

/-- C10. Blocked key wait: with 0xFX0A the opcode at `m_pc` and all 16 keys released,
the cycle completes and changes nothing but the opcode latch `m_opcode`: the program
counter is what it was, neither timer is decremented, and registers, index register,
memory, stack, stack pointer, display, draw flag, keys and output are unchanged. -/
theorem key_wait_blocked (r : Nat) (s : CHIP8) (X : Nat) (hwf : WF s) (hX : X < 16)
    (hf : fetches s (0xF00A + X * 256))
    (hkeys : ∀ k, k < 16 → s.m_key k = false) :
    emulateCycle r s = some { s with m_opcode := 0xF00A + X * 256 } := by
  have hsub : (0xF00A + X * 256) % 256 = 0x0A := by omega
  have hd := decode_F r { s with m_opcode := 0xF00A + X * 256, m_pc := s.m_pc + 2 }
    (by simp; omega)
  simp only [hsub] at hd
  have hpc := hf.1
  have hw : (s.m_pc + 2 + 65534) % 65536 = s.m_pc := by omega
  have hl := keyLoop_released 16 0 { s with m_opcode := 0xF00A + X * 256, m_pc := s.m_pc + 2 }
    (by omega) hkeys
  simp [op_LD_Vx_K, hl, hw] at hd
  rw [emulateCycle_of_fetches r s _ hwf.memory_lt hf, hd]
  simp

/-- C10 at opcode 0xFA0A with both timers running (3 and 1) and no key pressed. -/
theorem key_wait_blocked_witness :
    emulateCycle 0
        { machine [0xFA, 0x0A] [] 0 with m_delay_timer := 3, m_sound_timer := 1 } =
      some { machine [0xFA, 0x0A] [] 0 with
        m_delay_timer := 3, m_sound_timer := 1, m_opcode := 0xFA0A } :=
  have w := WF_machine [0xFA, 0x0A] [] 0 (by decide) (by decide) (by decide)
  key_wait_blocked 0 { machine [0xFA, 0x0A] [] 0 with m_delay_timer := 3, m_sound_timer := 1 }
    10 ⟨w.opcode_lt, w.memory_lt, w.V_lt, w.I_lt, w.pc_lt, by decide, by decide, w.stack_lt,
      w.sp_lt⟩ (by decide) (by unfold fetches; decide) (fun _ _ => rfl)

/-- C11. Satisfied key wait: with 0xFX0A the opcode at `m_pc` and at least one key
pressed, the cycle completes with Vx the smallest index k in 0..15 whose key is
pressed, `m_pc = old m_pc + 2`, and both timers after their decrement step (one less,
staying at 0). -/
theorem key_wait_satisfied (r : Nat) (s : CHIP8) (X : Nat) (hwf : WF s) (hX : X < 16)
    (hf : fetches s (0xF00A + X * 256))
    (hany : ∃ k, k < 16 ∧ s.m_key k = true) :
    ∃ s1 k, emulateCycle r s = some s1 ∧
      k < 16 ∧ s.m_key k = true ∧ (∀ j, j < k → s.m_key j = false) ∧
      s1.m_V X = k ∧
      s1.m_pc = s.m_pc + 2 ∧
      s1.m_delay_timer = s.m_delay_timer - 1 ∧
      s1.m_sound_timer = s.m_sound_timer - 1 := by
  classical
  obtain ⟨hk16, hkp⟩ := Nat.find_spec hany
  have hmin : ∀ j, j < Nat.find hany → s.m_key j = false := by
    intro j hj
    have := Nat.find_min hany hj
    have hj16 : j < 16 := by omega
    simpa [hj16] using this
  have hx : opX { s with m_opcode := 0xF00A + X * 256, m_pc := s.m_pc + 2 } = X :=
    opX_eq _ X (by simp; omega)
  have hsub : (0xF00A + X * 256) % 256 = 0x0A := by omega
  have hd := decode_F r { s with m_opcode := 0xF00A + X * 256, m_pc := s.m_pc + 2 }
    (by simp; omega)
  simp only [hsub] at hd
  have hl := keyLoop_pressed 16 0 { s with m_opcode := 0xF00A + X * 256, m_pc := s.m_pc + 2 }
    (Nat.find hany) (Nat.zero_le _) (by omega) hk16 hkp (fun j _ hj => hmin j hj)
  rw [hx] at hl
  simp [op_LD_Vx_K, hl] at hd
  refine ⟨_, Nat.find hany, emulateCycle_of_decode r s _ _ hwf.memory_lt hf hd, hk16, hkp, hmin,
    ?_, ?_, ?_, ?_⟩
  · simp [store]
  · simp
  · simp [updateTimers_m_delay_timer]
  · simp [updateTimers_m_sound_timer]

/-- C11 at opcode 0xFA0A with the keys 3 and 7 pressed: VA becomes 3. -/
theorem key_wait_satisfied_witness :
    ∃ s1 k, emulateCycle 0 { machine [0xFA, 0x0A] [] 0 with
        m_key := fun i => decide (i = 3 ∨ i = 7) } = some s1 ∧
      k = 3 ∧ s1.m_V 0xA = k ∧ s1.m_pc = 0x202 := by
  have w := WF_machine [0xFA, 0x0A] [] 0 (by decide) (by decide) (by decide)
  obtain ⟨s1, k, h, hk, hp, hmin, hv, hpc, -, -⟩ := key_wait_satisfied 0
    { machine [0xFA, 0x0A] [] 0 with m_key := fun i => decide (i = 3 ∨ i = 7) } 10
    ⟨w.opcode_lt, w.memory_lt, w.V_lt, w.I_lt, w.pc_lt, w.delay_lt, w.sound_lt, w.stack_lt,
      w.sp_lt⟩ (by decide) (by unfold fetches; decide) ⟨3, by decide, by decide⟩
  have hk3 : k = 3 := by
    have h3 : ¬ 3 < k := fun h3 => by simpa using hmin 3 h3
    have hk2 : k = 3 ∨ k = 7 := by simpa using hp
    omega
  exact ⟨s1, k, h, hk3, hv, hpc⟩

/-- C12. Draw is an involution on the display: for every display content, X and Y other
than 0xF, N in 0..15 and the N sprite rows inside memory, two cycles in a row on the
same 0xDXYN (the opcode stands at `m_pc` and again at `m_pc + 2`) both complete and
leave the display buffer equal, cell for cell, to its content before the first draw. -/
theorem draw_twice_restores (r1 r2 : Nat) (s : CHIP8) (X Y N : Nat) (hwf : WF s)
    (hX : X < 16) (hXF : X ≠ 0xF) (hY : Y < 16) (hYF : Y ≠ 0xF) (hN : N < 16)
    (hrows : ∀ y, y < N → s.m_I + y < 4096)
    (hf : fetches s (0xD000 + X * 256 + Y * 16 + N))
    (hf2 : s.m_pc + 3 < 4096 ∧ s.m_memory (s.m_pc + 2) = (0xD000 + X * 256 + Y * 16 + N) / 256 ∧
      s.m_memory (s.m_pc + 3) = (0xD000 + X * 256 + Y * 16 + N) % 256) :
    ∃ s1 s2, emulateCycle r1 s = some s1 ∧ emulateCycle r2 s1 = some s2 ∧
      s2.m_gfx = s.m_gfx := by
  obtain ⟨s1, h1, hm1, hi1, hp1, hg1, hv1, -, -⟩ :=
    cycle_DRW r1 s X Y N hwf.memory_lt hX hY hN hrows hf
  obtain ⟨s2, h2, -, -, -, hg2, -, -, -⟩ :=
    cycle_DRW r2 s1 X Y N (by rw [hm1]; exact hwf.memory_lt) hX hY hN
      (by rw [hi1]; exact hrows) (by unfold fetches; rw [hp1, hm1]; exact hf2)
  refine ⟨s1, s2, h1, h2, ?_⟩
  funext c
  rw [hg2 c, hg1 c, hm1, hi1, hv1 X hXF, hv1 Y hYF]
  by_cases hc : rowsHit s.m_memory s.m_I (s.m_V X % 64) (s.m_V Y % 32) N 0 c = true
  · simp [hc]
  · simp [hc]

/-- C12 on a lit display: the glyph of 0 (font bytes at I = 0) drawn twice at (3, 2). -/
theorem draw_twice_restores_witness :
    ∃ s1 s2,
      emulateCycle 0 { machine [0xD0, 0x15, 0xD0, 0x15] [3, 2] 0 with
        m_gfx := fun c => decide (c % 3 = 0) } = some s1 ∧
      emulateCycle 0 s1 = some s2 ∧ s2.m_gfx = fun c => decide (c % 3 = 0) :=
  have w := WF_machine [0xD0, 0x15, 0xD0, 0x15] [3, 2] 0 (by decide) (by decide) (by decide)
  draw_twice_restores 0 0
    { machine [0xD0, 0x15, 0xD0, 0x15] [3, 2] 0 with m_gfx := fun c => decide (c % 3 = 0) } 0 1 5
    ⟨w.opcode_lt, w.memory_lt, w.V_lt, w.I_lt, w.pc_lt, w.delay_lt, w.sound_lt, w.stack_lt,
      w.sp_lt⟩ (by decide) (by decide) (by decide) (by decide) (by decide)
    (fun y hy => Nat.lt_of_lt_of_le (Nat.add_lt_add_left hy 0) (by decide))
    (by unfold fetches; decide) (by decide)

/-- C13, the claim as stated fails: display cleared, V0 = 0, V1 = 31, I = 0x204, the
two-row sprite `00 80` (non-empty: row 1 has a set bit) and the opcode 0xD012 twice.
The only set bit belongs to row 32, off the buffer, so neither draw touches a cell and
VF is 0 after the second draw. -/
theorem second_draw_clipped_no_collision :
    (machine [0xD0, 0x12, 0xD0, 0x12, 0x00, 0x80] [0, 31] 0x204).m_memory 0x205 = 0x80 ∧
    (machine [0xD0, 0x12, 0xD0, 0x12, 0x00, 0x80] [0, 31] 0x204).m_gfx = (fun _ => false) ∧
    ((run (fun _ => 0) 2 (machine [0xD0, 0x12, 0xD0, 0x12, 0x00, 0x80] [0, 31] 0x204)).map
      (fun s => (s.m_opcode, s.m_V 0xF))) = some (0xD012, 0) := by
  refine ⟨by decide, rfl, by decide⟩

/-- C13, amended. From a cleared display, with X and Y other than 0xF and a sprite
that has at least one set bit whose target index
`(Vx mod 64) + col + ((Vy mod 32) + row) * 64` is below 2048, two cycles in a row on the
same 0xDXYN both complete and leave `VF = 1` after the second draw. -/
theorem second_draw_collides (r1 r2 : Nat) (s : CHIP8) (X Y N : Nat) (hwf : WF s)
    (hX : X < 16) (hXF : X ≠ 0xF) (hY : Y < 16) (hYF : Y ≠ 0xF) (hN : N < 16)
    (hrows : ∀ y, y < N → s.m_I + y < 4096)
    (hclear : ∀ c, c < 2048 → s.m_gfx c = false)
    (hbit : ∃ row col, row < N ∧ col < 8 ∧ s.m_memory (s.m_I + row) &&& (0x80 >>> col) ≠ 0 ∧
      s.m_V X % 64 + col + (s.m_V Y % 32 + row) * 64 < 2048)
    (hf : fetches s (0xD000 + X * 256 + Y * 16 + N))
    (hf2 : s.m_pc + 3 < 4096 ∧ s.m_memory (s.m_pc + 2) = (0xD000 + X * 256 + Y * 16 + N) / 256 ∧
      s.m_memory (s.m_pc + 3) = (0xD000 + X * 256 + Y * 16 + N) % 256) :
    ∃ s1 s2, emulateCycle r1 s = some s1 ∧ emulateCycle r2 s1 = some s2 ∧
      s2.m_V 0xF = 1 := by
  obtain ⟨s1, h1, hm1, hi1, hp1, hg1, hv1, -, -⟩ :=
    cycle_DRW r1 s X Y N hwf.memory_lt hX hY hN hrows hf
  obtain ⟨s2, h2, -, -, -, -, -, hc2, -⟩ :=
    cycle_DRW r2 s1 X Y N (by rw [hm1]; exact hwf.memory_lt) hX hY hN
      (by rw [hi1]; exact hrows) (by unfold fetches; rw [hp1, hm1]; exact hf2)
  refine ⟨s1, s2, h1, h2, hc2 ?_⟩
  obtain ⟨row, col, hr, hc, hb, hlt⟩ := hbit
  have hhit : rowsHit s.m_memory s.m_I (s.m_V X % 64) (s.m_V Y % 32) N 0
      (s.m_V X % 64 + col + (s.m_V Y % 32 + row) * 64) = true :=
    (rowsHit_iff_bit _ _ _ _ _ _).2 ⟨row, col, hr, hc, hb, rfl, hlt⟩
  refine ⟨s.m_V X % 64 + col + (s.m_V Y % 32 + row) * 64, ?_, ?_⟩
  · rw [hm1, hi1, hv1 X hXF, hv1 Y hYF]; exact hhit
  · rw [hg1, hhit, hclear _ hlt]; rfl

/-- C13 amended, on the glyph of 0 drawn twice at (3, 2) on a cleared display. -/
theorem second_draw_collides_witness :
    ∃ s1 s2, emulateCycle 0 (machine [0xD0, 0x15, 0xD0, 0x15] [3, 2] 0) = some s1 ∧
      emulateCycle 0 s1 = some s2 ∧ s2.m_V 0xF = 1 :=
  second_draw_collides 0 0 (machine [0xD0, 0x15, 0xD0, 0x15] [3, 2] 0) 0 1 5
    (WF_machine _ _ _ (by decide) (by decide) (by decide))
    (by decide) (by decide) (by decide) (by decide) (by decide)
    (fun y hy => Nat.lt_of_lt_of_le (Nat.add_lt_add_left hy 0) (by decide))
    (fun _ _ => rfl) ⟨0, 0, by decide, by decide, by decide, by decide⟩
    (by unfold fetches; decide) (by decide)

/-- C14, the claim as stated fails: V0 = 60, V1 = 0, N = 1 and the sprite byte 0xFF.
The claim allows changes in columns 60..63 of row 0 only; the draw also lights cell
64, which is column 0 of row 1 (the sprite columns 4..7 run on into the next row). -/
theorem draw_spills_onto_next_row :
    (machine [0xD0, 0x11, 0xFF] [60, 0] 0x202).m_gfx 64 = false ∧
    (emulateCycle 0 (machine [0xD0, 0x11, 0xFF] [60, 0] 0x202)).map
      (fun s => (s.m_opcode, s.m_gfx 64)) = some (0xD011, true) ∧
    (64 % 64, 64 / 64) = (0, 1) := by
  decide

/-- C14, amended. The draw clips at the end of the buffer only: the cycle completes and
the cells whose value differs afterwards are exactly the cells of linear index
`(Vx mod 64) + col + ((Vy mod 32) + row) * 64` for a set sprite bit (row below N, col
below 8) with that index below 2048; a set bit whose index is 2048 or more changes no
cell. -/
theorem draw_changes_hit_cells (r : Nat) (s : CHIP8) (X Y N : Nat) (hwf : WF s)
    (hX : X < 16) (hY : Y < 16) (hN : N < 16)
    (hrows : ∀ y, y < N → s.m_I + y < 4096)
    (hf : fetches s (0xD000 + X * 256 + Y * 16 + N)) :
    ∃ s1, emulateCycle r s = some s1 ∧
      ∀ c, s1.m_gfx c ≠ s.m_gfx c ↔
        ∃ row col, row < N ∧ col < 8 ∧ s.m_memory (s.m_I + row) &&& (0x80 >>> col) ≠ 0 ∧
          c = s.m_V X % 64 + col + (s.m_V Y % 32 + row) * 64 ∧ c < 2048 := by
  obtain ⟨s1, h1, -, -, -, hg1, -, -, -⟩ :=
    cycle_DRW r s X Y N hwf.memory_lt hX hY hN hrows hf
  refine ⟨s1, h1, fun c => ?_⟩
  rw [← rowsHit_iff_bit, hg1 c]
  by_cases hc : rowsHit s.m_memory s.m_I (s.m_V X % 64) (s.m_V Y % 32) N 0 c = true
  · simp [hc]
  · simp [hc]

/-- C14 amended, at V0 = 60, V1 = 0, N = 1, sprite byte 0xFF: cell 64 is the target of
column 4 and differs after the draw. -/
theorem draw_changes_hit_cells_witness :
    ∃ s1, emulateCycle 0 (machine [0xD0, 0x11, 0xFF] [60, 0] 0x202) = some s1 ∧
      s1.m_gfx 64 ≠ (machine [0xD0, 0x11, 0xFF] [60, 0] 0x202).m_gfx 64 := by
  obtain ⟨s1, h, hc⟩ := draw_changes_hit_cells 0 (machine [0xD0, 0x11, 0xFF] [60, 0] 0x202) 0 1 1
    (WF_machine _ _ _ (by decide) (by decide) (by decide)) (by decide) (by decide) (by decide)
    (fun y hy => by
      have : y = 0 := by omega
      subst this; decide)
    (by unfold fetches; decide)
  exact ⟨s1, h, (hc 64).2 ⟨0, 4, by decide, by decide, by decide, by decide, by decide⟩⟩

/-- C15. Random is masked (0xCXNN): for every X, every byte NN and every byte r drawn
from the random source, the cycle completes with `Vx = r AND NN`; Vx has no bit set
outside NN, `Vx <= NN`, NN = 0x0F keeps Vx in 0..15 and NN = 0xFF leaves r unchanged. -/
theorem random_masked (r : Nat) (s : CHIP8) (X NN : Nat) (hwf : WF s) (hX : X < 16)
    (hNN : NN < 256) (hr : r < 256) (hf : fetches s (0xC000 + X * 256 + NN)) :
    ∃ s1, emulateCycle r s = some s1 ∧
      s1.m_V X = r &&& NN ∧
      s1.m_V X &&& NN = s1.m_V X ∧
      s1.m_V X ≤ NN ∧
      (NN = 0x0F → s1.m_V X ≤ 15) ∧
      (NN = 0xFF → s1.m_V X = r) := by
  have hx : opX { s with m_opcode := 0xC000 + X * 256 + NN, m_pc := s.m_pc + 2 } = X :=
    opX_eq _ X (by simp; omega)
  have hnn : (0xC000 + X * 256 + NN) % 256 = NN := by omega
  have hd := decode_C r { s with m_opcode := 0xC000 + X * 256 + NN, m_pc := s.m_pc + 2 }
    (by simp; omega)
  have hle : r &&& NN ≤ NN := Nat.and_le_right
  have hm : (r &&& NN) % 256 = r &&& NN := by omega
  simp [op_RND, hx, arrSet, hX, land_00FF, hnn, hm] at hd
  refine ⟨_, emulateCycle_of_decode r s _ _ hwf.memory_lt hf hd, ?_, ?_, ?_, ?_, ?_⟩
  · simp [store]
  · simp [store, Nat.and_assoc]
  · simpa [store] using hle
  · intro h
    have : r &&& NN ≤ 15 := by omega
    simpa [store] using this
  · intro h
    have h8 := Nat.and_pow_two_sub_one_eq_mod r 8
    norm_num at h8
    have : r &&& NN = r := by rw [h, h8]; omega
    simpa [store] using this

/-- C15 at opcode 0xC00F with the random byte 0xAB: V0 = 0x0B. -/
theorem random_masked_witness :
    ∃ s1, emulateCycle 0xAB (machine [0xC0, 0x0F] [] 0) = some s1 ∧ s1.m_V 0 = 0x0B := by
  obtain ⟨s1, h, hv, -⟩ := random_masked 0xAB (machine [0xC0, 0x0F] [] 0) 0 0x0F
    (WF_machine _ _ _ (by decide) (by decide) (by decide)) (by decide) (by decide)
    (by decide) (by unfold fetches; decide)
  exact ⟨s1, h, hv⟩

/-- C16. Timer step: for a cycle that completes (the fetched opcode is decoded and
`decodeOpcode` returns true) on an opcode that is not a timer write (0xFX15, 0xFX18),
each timer afterwards is one less when it was above 0 and 0 when it was 0, so a timer
at 0 does not wrap to 255; and among the lines the cycle prints, the beep is present
exactly when the sound timer was 1, that is when it goes from 1 to 0. -/
theorem timer_step (r : Nat) (s d : CHIP8) (op : Nat) (hwf : WF s) (hf : fetches s op)
    (hnw : ¬ (op / 4096 = 15 ∧ (op % 256 = 0x15 ∨ op % 256 = 0x18)))
    (hd : decodeOpcode r { s with m_opcode := op, m_pc := s.m_pc + 2 } = some (true, d)) :
    ∃ s1, emulateCycle r s = some s1 ∧
      s1.m_delay_timer = (if s.m_delay_timer > 0 then s.m_delay_timer - 1 else 0) ∧
      s1.m_sound_timer = (if s.m_sound_timer > 0 then s.m_sound_timer - 1 else 0) ∧
      ∃ l, s1.cout = s.cout ++ l ∧ (Output.beep ∈ l ↔ s.m_sound_timer = 1) := by
  obtain ⟨hdl, hsd, ⟨l0, hl0, hnb⟩, -, -⟩ := decode_frame r _ d true hd
  simp only at hdl hsd hl0
  have hopl : op / 256 < 256 := by
    have := hwf.memory_lt s.m_pc (by have := hf.1; omega)
    rw [hf.2.1] at this; exact this
  have hdl2 : d.m_delay_timer = s.m_delay_timer := by
    rcases hdl with h | ⟨h1, h2⟩
    · exact h
    · exact absurd ⟨by omega, Or.inl h2⟩ hnw
  have hsd2 : d.m_sound_timer = s.m_sound_timer := by
    rcases hsd with h | ⟨h1, h2⟩
    · exact h
    · exact absurd ⟨by omega, Or.inr h2⟩ hnw
  refine ⟨_, emulateCycle_of_decode r s d op hwf.memory_lt hf hd, ?_, ?_, ?_⟩
  · rw [updateTimers_m_delay_timer, hdl2]; split_ifs <;> omega
  · rw [updateTimers_m_sound_timer, hsd2]; split_ifs <;> omega
  · refine ⟨l0 ++ (if s.m_sound_timer = 1 then [Output.beep] else []), ?_, ?_⟩
    · rw [updateTimers_cout, hl0, hsd2, List.append_assoc]
    · by_cases h1 : s.m_sound_timer = 1
      · simp [h1]
      · simp [h1, hnb]

/-- C16 at opcode 0x6005 with the delay timer at 0 and the sound timer at 1: the delay
timer stays at 0, the sound timer reaches 0 and the beep is printed. -/
theorem timer_step_witness :
    ∃ s1, emulateCycle 0
        { machine [0x60, 0x05] [] 0 with m_delay_timer := 0, m_sound_timer := 1 } = some s1 ∧
      s1.m_delay_timer = 0 ∧ s1.m_sound_timer = 0 ∧
      ∃ l, s1.cout = [] ++ l ∧ (Output.beep ∈ l ↔ 1 = 1) :=
  have w := WF_machine [0x60, 0x05] [] 0 (by decide) (by decide) (by decide)
  timer_step 0 { machine [0x60, 0x05] [] 0 with m_delay_timer := 0, m_sound_timer := 1 }
    { machine [0x60, 0x05] [] 0 with
      m_delay_timer := 0, m_sound_timer := 1, m_opcode := 0x6005, m_pc := 0x202,
      m_V := store (machine [0x60, 0x05] [] 0).m_V 0 5 }
    0x6005
    ⟨w.opcode_lt, w.memory_lt, w.V_lt, w.I_lt, w.pc_lt, by decide, by decide, w.stack_lt,
      w.sp_lt⟩ (by unfold fetches; decide) (by decide) rfl

/-- C17. Unknown opcodes are a no-op: for every opcode outside the implemented set
the cycle completes (no fault) with registers, index register, memory, stack, stack
pointer, display, draw flag and keys unchanged, `m_pc = old m_pc + 2`, and the timers
after their ordinary decrement step. -/
theorem unknown_noop (r : Nat) (s : CHIP8) (op : Nat) (hwf : WF s)
    (hf : fetches s op) (hu : unknownOpcode op) :
    ∃ s1, emulateCycle r s = some s1 ∧
      s1.m_V = s.m_V ∧ s1.m_I = s.m_I ∧ s1.m_memory = s.m_memory ∧
      s1.m_stack = s.m_stack ∧ s1.m_sp = s.m_sp ∧ s1.m_gfx = s.m_gfx ∧
      s1.m_draw_flag = s.m_draw_flag ∧ s1.m_key = s.m_key ∧
      s1.m_pc = s.m_pc + 2 ∧
      s1.m_delay_timer = s.m_delay_timer - 1 ∧
      s1.m_sound_timer = s.m_sound_timer - 1 := by
  obtain ⟨diag, hd⟩ := decode_unknown r { s with m_opcode := op, m_pc := s.m_pc + 2 } hu
  refine ⟨_, emulateCycle_of_decode r s _ _ hwf.memory_lt hf hd, ?_⟩
  simp [updateTimers_m_delay_timer, updateTimers_m_sound_timer]

/-- C17 at opcode 0x8129 (0x8XYn with n = 9). -/
theorem unknown_noop_witness :
    ∃ s1, emulateCycle 0 (machine [0x81, 0x29] [5, 6] 0x300) = some s1 ∧
      s1.m_V = (machine [0x81, 0x29] [5, 6] 0x300).m_V ∧ s1.m_pc = 0x202 := by
  obtain ⟨s1, h, hv, -, -, -, -, -, -, -, hpc, -⟩ := unknown_noop 0
    (machine [0x81, 0x29] [5, 6] 0x300) 0x8129
    (WF_machine _ _ _ (by decide) (by decide) (by decide)) (by unfold fetches; decide)
    (by unfold unknownOpcode; decide)
  exact ⟨s1, h, hv, hpc⟩

/-- C18. Code at the failing inputs, on a fresh machine. The 2-byte ROM `12 00`: the
two bytes land at 0x200 and 0x201, and the pass of the read loop that meets the end of
the file stores one more byte, 255, at 0x202, which held 0. A ROM of 3584 bytes: that
extra pass stores at address 4096 and the load faults. -/
theorem loadGame_stores_EOF_byte :
    (loadGame (some [0x12, 0x00]) ctor).map
        (fun s => (s.m_memory 0x200, s.m_memory 0x201, s.m_memory 0x202)) = some (0x12, 0x00, 255) ∧
    ctor.m_memory 0x202 = 0 ∧
    (List.replicate 3584 0).length = 3584 ∧
    loadGame (some (List.replicate 3584 0)) ctor = none := by
  refine ⟨by decide, by decide, List.length_replicate _ _, ?_⟩
  simp only [loadGame]
  rw [loadLoop_fault _ _ _ (by rw [List.length_replicate])]
  rfl

/-- C19, the claim as stated fails, on fresh machines with a ROM loaded. ROM `12 01`
(JP 0x201): after one cycle the program counter is 0x201, odd. ROM `1F FE` (JP 0xFFE,
where memory holds 0x0000): after two cycles it is 4096. ROM `60 FF BF FF` (V0 = 0xFF,
then JP V0 + 0xFFF): after two cycles it is 4350. -/
theorem pc_odd_or_beyond_memory :
    ((loadGame (some [0x12, 0x01]) ctor).bind (run (fun _ => 0) 1)).map
      (fun s => (s.m_pc, s.m_pc % 2)) = some (0x201, 1) ∧
    ((loadGame (some [0x1F, 0xFE]) ctor).bind (run (fun _ => 0) 2)).map
      (fun s => s.m_pc) = some 4096 ∧
    ((loadGame (some [0x60, 0xFF, 0xBF, 0xFF]) ctor).bind (run (fun _ => 0) 2)).map
      (fun s => s.m_pc) = some 4350 := by
  decide

/-- C19, amended. In every state reachable from a fresh machine by loading any ROM and
running completed cycles under any key inputs, the program counter is at most 4350
(0xFFF + 0xFF); and a cycle that starts with the program counter above 4094 faults at
the fetch. -/
theorem pc_bounded (s : CHIP8) (h : Reachable s) :
    s.m_pc ≤ 4350 ∧ ∀ r, 4094 < s.m_pc → emulateCycle r s = none := by
  refine ⟨(Reachable_inv s h).2.1, fun r hpc => ?_⟩
  simp only [emulateCycle, arrAt]
  split_ifs <;> first | omega | rfl

/-- C19 amended, at the state reached by ROM `12 01` after one cycle. -/
theorem pc_bounded_witness :
    ∃ s, Reachable s ∧ s.m_pc = 0x201 ∧ s.m_pc ≤ 4350 := by
  have h0 : loadGame (some [0x12, 0x01]) ctor = some { ctor with
      m_memory := store (store (store ctor.m_memory 0x200 0x12) 0x201 0x01) 0x202 255 } := rfl
  have h1 : emulateCycle 0 { ctor with
      m_memory := store (store (store ctor.m_memory 0x200 0x12) 0x201 0x01) 0x202 255 } =
      some { ctor with
        m_memory := store (store (store ctor.m_memory 0x200 0x12) 0x201 0x01) 0x202 255,
        m_opcode := 0x1201, m_pc := 0x201 } := rfl
  have hr := Reachable.cycle 0 _ _ (Reachable.load _ _ h0) h1
  exact ⟨_, hr, rfl, (pc_bounded _ hr).1⟩

/-- C20, the claim as stated fails: on a fresh machine with the ROM `F0 33` loaded,
I = 0 and V0 = 0, so the cycle on 0xF033 writes the digits 0, 0, 0 at addresses 0..2;
the font byte 0xF0 at address 0 becomes 0. -/
theorem bcd_overwrites_font :
    fontset.getD 0 0 = 0xF0 ∧
    (loadGame (some [0xF0, 0x33]) ctor).map (fun s => s.m_memory 0) = some 0xF0 ∧
    ((loadGame (some [0xF0, 0x33]) ctor).bind (emulateCycle 0)).map
      (fun s => (s.m_opcode, s.m_memory 0)) = some (0xF033, 0) := by
  decide

/-- C20, amended. After construction `memory[0..79]` holds the 80 font bytes, and a
run of any number of completed cycles leaves `memory[0..79]` unchanged, provided no
cycle of the run executes 0xFX33 or 0xFX55 with the index register below 80. -/
theorem font_table_kept (n : Nat) : ∀ (rnd : Nat → Nat) (s s1 : CHIP8), WF s →
    (∀ k sk op, k < n → run rnd k s = some sk → fetches sk op →
      op / 4096 = 15 → (op % 256 = 0x33 ∨ op % 256 = 0x55) → 80 ≤ sk.m_I) →
    run rnd n s = some s1 →
    (∀ a, a < 80 → ctor.m_memory a = fontset.getD a 0) ∧ fontset.length = 80 ∧
      ∀ a, a < 80 → s1.m_memory a = s.m_memory a := by
  induction n with
  | zero =>
    intro rnd s s1 _ _ h
    simp only [run, Option.some.injEq] at h
    subst h
    exact ⟨fun a ha => by simp [ctor, ha], rfl, fun _ _ => rfl⟩
  | succ n ih =>
    intro rnd s s1 hwf hsafe h
    simp only [run] at h
    obtain ⟨sa, ha, hb⟩ := Option.bind_eq_some.1 h
    have hstep := emulateCycle_low_memory (rnd 0) s sa hwf
      (fun op hf hc hsub => hsafe 0 s op (Nat.succ_pos n) rfl hf hc hsub) ha
    obtain ⟨hwa, -, -⟩ := emulateCycle_WF (rnd 0) s sa 65535 hwf (by decide)
      (fun i hi => Nat.le_of_lt_succ (hwf.stack_lt i hi)) ha
    obtain ⟨hc1, hc2, hrest⟩ := ih (fun k => rnd (k + 1)) sa s1 hwa
      (fun k sk op hk hrun hf hc hsub =>
        hsafe (k + 1) sk op (Nat.succ_lt_succ hk) (by simp only [run, ha, Option.some_bind]; exact hrun)
          hf hc hsub) hb
    exact ⟨hc1, hc2, fun a h80 => by rw [hrest a h80, hstep a h80]⟩

/-- C20 amended, on one cycle of opcode 0x6005. -/
theorem font_table_kept_witness :
    ∃ s1, run (fun _ => 0) 1 (machine [0x60, 0x05] [] 0) = some s1 ∧
      ∀ a, a < 80 → s1.m_memory a = (machine [0x60, 0x05] [] 0).m_memory a := by
  have h1 : run (fun _ => 0) 1 (machine [0x60, 0x05] [] 0) = some { machine [0x60, 0x05] [] 0 with
      m_opcode := 0x6005, m_pc := 0x202, m_V := store (machine [0x60, 0x05] [] 0).m_V 0 5 } := rfl
  refine ⟨_, h1, (font_table_kept 1 (fun _ => 0) (machine [0x60, 0x05] [] 0) _
    (WF_machine _ _ _ (by decide) (by decide) (by decide)) ?_ h1).2.2⟩
  intro k sk op hk hrun hf hc _
  have hk0 : k = 0 := by omega
  subst hk0
  simp only [run, Option.some.injEq] at hrun
  subst hrun
  have hm : (machine [0x60, 0x05] [] 0).m_memory (machine [0x60, 0x05] [] 0).m_pc = 0x60 := by
    decide
  have h2 := hf.2.1
  rw [hm] at h2
  omega

/-- C21. Code at the failing inputs, ROMs loaded into a fresh machine and run for two
cycles. ROM `61 05 8F 14` (V1 = 5, then ADD VF, V1): 0 + 5 has no carry, and VF ends as
5. ROM `6F 03 8F 06` (VF = 3, then SHR VF): the bit shifted out of 3 is 1, and VF ends
as 0. ROM `61 05 8F 15` (SUB VF, V1): 0 - 5 borrows, flag 0, and VF ends as 251. ROM
`61 05 8F 17` (SUBN VF, V1): 5 - 0 does not borrow, flag 1, and VF ends as 4. ROM
`6F 81 8F 0E` (VF = 0x81, SHL VF): the bit shifted out is 1, and VF ends as 2. -/
theorem flag_lost_when_X_is_F :
    ((loadGame (some [0x61, 0x05, 0x8F, 0x14]) ctor).bind (run (fun _ => 0) 2)).map
      (fun s => (s.m_opcode, s.m_V 0xF)) = some (0x8F14, 5) ∧
    ((loadGame (some [0x6F, 0x03, 0x8F, 0x06]) ctor).bind (run (fun _ => 0) 2)).map
      (fun s => (s.m_opcode, s.m_V 0xF)) = some (0x8F06, 0) ∧
    ((loadGame (some [0x61, 0x05, 0x8F, 0x15]) ctor).bind (run (fun _ => 0) 2)).map
      (fun s => (s.m_opcode, s.m_V 0xF)) = some (0x8F15, 251) ∧
    ((loadGame (some [0x61, 0x05, 0x8F, 0x17]) ctor).bind (run (fun _ => 0) 2)).map
      (fun s => (s.m_opcode, s.m_V 0xF)) = some (0x8F17, 4) ∧
    ((loadGame (some [0x6F, 0x81, 0x8F, 0x0E]) ctor).bind (run (fun _ => 0) 2)).map
      (fun s => (s.m_opcode, s.m_V 0xF)) = some (0x8F0E, 2) := by
  decide

/-- C22. Collision flag is exact: for every display, X and Y in 0..15 (so also other
than 0xF), N in 0..15 and the N sprite rows inside memory, the cycle on 0xDXYN
completes, and afterwards VF = 1 if and only if some sprite row `row < N` and column
`col < 8` has its bit set, its target index
`(Vx mod 64) + col + ((Vy mod 32) + row) * 64` below 2048 and its target cell true in
the display as it was before the draw; otherwise VF = 0 (VF is 1 or 0, and 1 exactly
in that case). Two different (row, col) never have the same target index, so no cell
is written twice by one draw. -/
theorem collision_flag_exact (r : Nat) (s : CHIP8) (X Y N : Nat) (hwf : WF s)
    (hX : X < 16) (hY : Y < 16) (hN : N < 16)
    (hrows : ∀ y, y < N → s.m_I + y < 4096)
    (hf : fetches s (0xD000 + X * 256 + Y * 16 + N)) :
    ∃ s1, emulateCycle r s = some s1 ∧
      (s1.m_V 0xF = 1 ↔ ∃ row col, row < N ∧ col < 8 ∧
        s.m_memory (s.m_I + row) &&& (0x80 >>> col) ≠ 0 ∧
        s.m_V X % 64 + col + (s.m_V Y % 32 + row) * 64 < 2048 ∧
        s.m_gfx (s.m_V X % 64 + col + (s.m_V Y % 32 + row) * 64) = true) ∧
      (s1.m_V 0xF = 1 ∨ s1.m_V 0xF = 0) ∧
      ∀ row col row2 col2, col < 8 → col2 < 8 →
        s.m_V X % 64 + col + (s.m_V Y % 32 + row) * 64 =
          s.m_V X % 64 + col2 + (s.m_V Y % 32 + row2) * 64 → row = row2 ∧ col = col2 := by
  obtain ⟨s1, h1, -, -, -, -, -, hc1, hc0⟩ :=
    cycle_DRW r s X Y N hwf.memory_lt hX hY hN hrows hf
  have hiff : (∃ c, rowsHit s.m_memory s.m_I (s.m_V X % 64) (s.m_V Y % 32) N 0 c = true ∧
      s.m_gfx c = true) ↔ ∃ row col, row < N ∧ col < 8 ∧
        s.m_memory (s.m_I + row) &&& (0x80 >>> col) ≠ 0 ∧
        s.m_V X % 64 + col + (s.m_V Y % 32 + row) * 64 < 2048 ∧
        s.m_gfx (s.m_V X % 64 + col + (s.m_V Y % 32 + row) * 64) = true := by
    constructor
    · rintro ⟨c, hc, hg⟩
      obtain ⟨row, col, h1, h2, h3, h4, h5⟩ := (rowsHit_iff_bit _ _ _ _ _ _).1 hc
      subst h4
      exact ⟨row, col, h1, h2, h3, h5, hg⟩
    · rintro ⟨row, col, h1, h2, h3, h4, h5⟩
      exact ⟨_, (rowsHit_iff_bit _ _ _ _ _ _).2 ⟨row, col, h1, h2, h3, rfl, h4⟩, h5⟩
  rw [← hiff]
  refine ⟨s1, h1, ⟨fun hv => ?_, hc1⟩, ?_, fun row col row2 col2 _ _ _ => by omega⟩
  · by_contra hex
    rw [hc0 hex] at hv
    exact absurd hv (by decide)
  · by_cases hex : ∃ c, rowsHit s.m_memory s.m_I (s.m_V X % 64) (s.m_V Y % 32) N 0 c = true ∧
        s.m_gfx c = true
    · exact Or.inl (hc1 hex)
    · exact Or.inr (hc0 hex)

/-- C22 on the glyph of 0 (font bytes at I = 0) drawn at (0, 0) with V0 = V1 = 0 on a
display whose only lit cell is cell 0: the sprite bit of row 0, column 0 is set and
its target cell 0 was lit, so VF = 1. -/
theorem collision_flag_exact_witness :
    ∃ s1, emulateCycle 0
        { machine [0xD0, 0x15] [0, 0] 0 with m_gfx := fun c => decide (c = 0) } = some s1 ∧
      s1.m_V 0xF = 1 := by
  have w := WF_machine [0xD0, 0x15] [0, 0] 0 (by decide) (by decide) (by decide)
  obtain ⟨s1, h, hiff, -, -⟩ := collision_flag_exact 0
    { machine [0xD0, 0x15] [0, 0] 0 with m_gfx := fun c => decide (c = 0) } 0 1 5
    ⟨w.opcode_lt, w.memory_lt, w.V_lt, w.I_lt, w.pc_lt, w.delay_lt, w.sound_lt, w.stack_lt,
      w.sp_lt⟩
    (by decide) (by decide) (by decide)
    (fun y hy => Nat.lt_of_lt_of_le (Nat.add_lt_add_left hy 0) (by decide))
    (by unfold fetches; decide)
  exact ⟨s1, h, hiff.2 ⟨0, 0, by decide, by decide, by decide, by decide, by decide⟩⟩

/-- C23. Fetch is big-endian and a jump replaces the program counter: in every state
with `m_pc <= 4094` the cycle is the decoding of the opcode
`memory[pc] * 256 + memory[pc+1]` (with the program counter already advanced by 2)
followed by the timer update of a completed instruction; and when `memory[pc]` is
`0x10 + n` with n in 0..15 the cycle completes with that opcode in `m_opcode` and the
program counter at exactly `n * 256 + memory[pc+1]`, whatever the program counter was
before. -/
theorem fetch_big_endian_jump_replaces_pc (r : Nat) (s : CHIP8) (hwf : WF s)
    (hpc : s.m_pc ≤ 4094) :
    emulateCycle r s =
      ((decodeOpcode r { s with
          m_opcode := s.m_memory s.m_pc * 256 + s.m_memory (s.m_pc + 1),
          m_pc := s.m_pc + 2 }).bind fun d =>
        if d.1 = false then some d.2 else some (updateTimers d.2)) ∧
    ∀ n, n < 16 → s.m_memory s.m_pc = 0x10 + n →
      ∃ s1, emulateCycle r s = some s1 ∧
        s1.m_opcode = (0x10 + n) * 256 + s.m_memory (s.m_pc + 1) ∧
        s1.m_pc = n * 256 + s.m_memory (s.m_pc + 1) := by
  obtain ⟨hf, -⟩ := fetches_of_pc s hwf.memory_lt (by omega)
  refine ⟨emulateCycle_of_fetches r s _ hwf.memory_lt hf, fun n hn hb0 => ?_⟩
  have hb1 := hwf.memory_lt (s.m_pc + 1) (by omega)
  have hd := decode_JP r { s with
    m_opcode := s.m_memory s.m_pc * 256 + s.m_memory (s.m_pc + 1), m_pc := s.m_pc + 2 }
    (by simp only; omega)
  simp only [op_JP, land_0FFF] at hd
  refine ⟨_, emulateCycle_of_decode r s _ _ hwf.memory_lt hf hd, ?_, ?_⟩
  · simp only [updateTimers_m_opcode, hb0]
  · simp only [updateTimers_m_pc]
    omega

/-- C23 at the ROM bytes `1A BC` on a fresh machine (program counter 0x200): the cycle
executes 0x1ABC and leaves the program counter at 0xABC. -/
theorem fetch_big_endian_jump_replaces_pc_witness :
    ∃ s1, emulateCycle 0 (machine [0x1A, 0xBC] [] 0) = some s1 ∧
      s1.m_opcode = 0x1ABC ∧ s1.m_pc = 0xABC := by
  obtain ⟨s1, h, ho, hp⟩ := (fetch_big_endian_jump_replaces_pc 0 (machine [0x1A, 0xBC] [] 0)
    (WF_machine _ _ _ (by decide) (by decide) (by decide)) (by decide)).2 10 (by decide)
    (by decide)
  exact ⟨s1, h, ho, hp⟩

/-- C24. Out-of-range memory access faults instead of wrapping. The fetch faults exactly
when `m_pc + 1` exceeds 4095: then the cycle faults, and otherwise it goes on to decode
the opcode read at `m_pc` and `m_pc + 1`. With the opcode fetched, the cycle faults if
and only if the highest address it needs exceeds 4095: `I + N - 1` for 0xDXYN with
N >= 1, `I + 2` for 0xFX33, `I + X` for 0xFX55 and for 0xFX65. -/
theorem out_of_range_access_faults (r : Nat) (s : CHIP8) (X Y N : Nat) (hwf : WF s)
    (hX : X < 16) (hY : Y < 16) (hN1 : 1 ≤ N) (hN : N < 16) :
    ((4095 < s.m_pc + 1 → emulateCycle r s = none) ∧
      (s.m_pc + 1 ≤ 4095 → emulateCycle r s =
        (decodeOpcode r { s with
            m_opcode := s.m_memory s.m_pc * 256 + s.m_memory (s.m_pc + 1),
            m_pc := s.m_pc + 2 }).bind fun d =>
          if d.1 = false then some d.2 else some (updateTimers d.2))) ∧
    (fetches s (0xD000 + X * 256 + Y * 16 + N) →
      (emulateCycle r s = none ↔ 4095 < s.m_I + N - 1)) ∧
    (fetches s (0xF033 + X * 256) → (emulateCycle r s = none ↔ 4095 < s.m_I + 2)) ∧
    (fetches s (0xF055 + X * 256) → (emulateCycle r s = none ↔ 4095 < s.m_I + X)) ∧
    (fetches s (0xF065 + X * 256) → (emulateCycle r s = none ↔ 4095 < s.m_I + X)) := by
  refine ⟨⟨fun hpc => ?_, fun hpc => ?_⟩, fun hf => ?_, fun hf => ?_, fun hf => ?_, fun hf => ?_⟩
  · simp only [emulateCycle, arrAt]
    split_ifs <;> first | omega | rfl
  · exact emulateCycle_of_fetches r s _ hwf.memory_lt
      (fetches_of_pc s hwf.memory_lt (by omega)).1
  · rw [emulateCycle_none_iff r s _ hwf.memory_lt hf, decode_D _ _ (by simp only; omega),
      op_DRW_none_iff]
    have hn : (0xD000 + X * 256 + Y * 16 + N) % 16 = N := by omega
    simp only [hn]
    constructor
    · rintro ⟨row, h1, h2⟩; omega
    · intro h; exact ⟨N - 1, by omega, by omega⟩
  · have hsub : (0xF033 + X * 256) % 256 = 0x33 := by omega
    rw [emulateCycle_none_iff r s _ hwf.memory_lt hf, decode_F _ _ (by simp only; omega)]
    simp only [hsub]
    simp [op_LD_B_none_iff]
  · have hsub : (0xF055 + X * 256) % 256 = 0x55 := by omega
    have hx : opX { s with m_opcode := 0xF055 + X * 256, m_pc := s.m_pc + 2 } = X :=
      opX_eq _ X (by simp; omega)
    rw [emulateCycle_none_iff r s _ hwf.memory_lt hf, decode_F _ _ (by simp only; omega)]
    simp only [hsub]
    simp [op_LD_mem_Vx_none_iff, hx]
  · have hsub : (0xF065 + X * 256) % 256 = 0x65 := by omega
    have hx : opX { s with m_opcode := 0xF065 + X * 256, m_pc := s.m_pc + 2 } = X :=
      opX_eq _ X (by simp; omega)
    rw [emulateCycle_none_iff r s _ hwf.memory_lt hf, decode_F _ _ (by simp only; omega)]
    simp only [hsub]
    simp [op_LD_Vx_mem_none_iff, hx]

/-- C24 on the examples: with I = 0xFFE the cycle on 0xF033 faults (it needs address
4096), and with I = 0xFFD it completes. -/
theorem out_of_range_access_faults_witness :
    emulateCycle 0 (machine [0xF0, 0x33] [234] 0xFFE) = none ∧
    emulateCycle 0 (machine [0xF0, 0x33] [234] 0xFFD) ≠ none :=
  ⟨((out_of_range_access_faults 0 (machine [0xF0, 0x33] [234] 0xFFE) 0 0 1
      (WF_machine _ _ _ (by decide) (by decide) (by decide)) (by decide) (by decide)
      (by decide) (by decide)).2.2.1 (by unfold fetches; decide)).2 (by decide),
   fun h => absurd (((out_of_range_access_faults 0 (machine [0xF0, 0x33] [234] 0xFFD) 0 0 1
      (WF_machine _ _ _ (by decide) (by decide) (by decide)) (by decide) (by decide)
      (by decide) (by decide)).2.2.1 (by unfold fetches; decide)).1 h) (by decide)⟩

/-- C25. A timer write is decremented in the same cycle: for every X in 0..15 and every
value v of Vx, the cycle on 0xFX15 completes with the delay timer at v - 1 when v > 0
and at 0 when v = 0, never at v itself for v > 0; the cycle on 0xFX18 does the same to
the sound timer, and with Vx = 1 it prints the beep in that very cycle. -/
theorem timer_write_decremented (r : Nat) (s : CHIP8) (X : Nat) (hwf : WF s) (hX : X < 16) :
    (fetches s (0xF015 + X * 256) →
      ∃ s1, emulateCycle r s = some s1 ∧
        s1.m_delay_timer = (if s.m_V X > 0 then s.m_V X - 1 else 0) ∧
        (s.m_V X > 0 → s1.m_delay_timer ≠ s.m_V X)) ∧
    (fetches s (0xF018 + X * 256) →
      ∃ s1, emulateCycle r s = some s1 ∧
        s1.m_sound_timer = (if s.m_V X > 0 then s.m_V X - 1 else 0) ∧
        (s.m_V X > 0 → s1.m_sound_timer ≠ s.m_V X) ∧
        (s.m_V X = 1 → s1.cout = s.cout ++ [Output.beep])) := by
  constructor
  · intro hf
    have hx : opX { s with m_opcode := 0xF015 + X * 256, m_pc := s.m_pc + 2 } = X :=
      opX_eq _ X (by simp; omega)
    have hsub : (0xF015 + X * 256) % 256 = 0x15 := by omega
    have hd := decode_F r { s with m_opcode := 0xF015 + X * 256, m_pc := s.m_pc + 2 }
      (by simp; omega)
    simp only [hsub] at hd
    simp [op_LD_DT_Vx, hx, arrAt, hX] at hd
    refine ⟨_, emulateCycle_of_decode r s _ _ hwf.memory_lt hf hd, ?_, ?_⟩
    · rw [updateTimers_m_delay_timer]; dsimp only; split_ifs <;> omega
    · rw [updateTimers_m_delay_timer]; intro h; dsimp only; omega
  · intro hf
    have hx : opX { s with m_opcode := 0xF018 + X * 256, m_pc := s.m_pc + 2 } = X :=
      opX_eq _ X (by simp; omega)
    have hsub : (0xF018 + X * 256) % 256 = 0x18 := by omega
    have hd := decode_F r { s with m_opcode := 0xF018 + X * 256, m_pc := s.m_pc + 2 }
      (by simp; omega)
    simp only [hsub] at hd
    simp [op_LD_ST_Vx, hx, arrAt, hX] at hd
    refine ⟨_, emulateCycle_of_decode r s _ _ hwf.memory_lt hf hd, ?_, ?_, ?_⟩
    · rw [updateTimers_m_sound_timer]; dsimp only; split_ifs <;> omega
    · rw [updateTimers_m_sound_timer]; intro h; dsimp only; omega
    · intro h1
      rw [updateTimers_cout]
      simp [h1]

/-- C25 on the examples: 0xF015 with V0 = 7 leaves the delay timer at 6; 0xF018 with
V0 = 1 leaves the sound timer at 0 and prints the beep. -/
theorem timer_write_decremented_witness :
    (∃ s1, emulateCycle 0 (machine [0xF0, 0x15] [7] 0) = some s1 ∧ s1.m_delay_timer = 6) ∧
    (∃ s1, emulateCycle 0 (machine [0xF0, 0x18] [1] 0) = some s1 ∧ s1.m_sound_timer = 0 ∧
      s1.cout = [Output.beep]) := by
  obtain ⟨s1, h, hd, -⟩ := (timer_write_decremented 0 (machine [0xF0, 0x15] [7] 0) 0
    (WF_machine _ _ _ (by decide) (by decide) (by decide)) (by decide)).1
    (by unfold fetches; decide)
  obtain ⟨s2, h2, hs, -, hb⟩ := (timer_write_decremented 0 (machine [0xF0, 0x18] [1] 0) 0
    (WF_machine _ _ _ (by decide) (by decide) (by decide)) (by decide)).2
    (by unfold fetches; decide)
  exact ⟨⟨s1, h, hd⟩, ⟨s2, h2, hs, hb rfl⟩⟩

end CHIP8
